import Mathlib

/-
  Verification development for comic.js (src/comic.js, version 0.94).

  The drawing engine works on JavaScript floating point numbers and calls
  Math.sqrt / Math.sin / Math.cos / Math.acos / Math.pow / Math.random.
  The shallow embedding uses exact rationals for all arithmetic the source
  performs with +,-,*,/ and Math.round/Math.ceil/Math.min/Math.abs, and
  threads the transcendental library calls as explicit oracle functions
  (fields of `Env`): a theorem quantified over the oracles holds for every
  possible behaviour of Math.sqrt etc., and concrete witnesses instantiate
  them with exact rational square roots on perfect squares.
  The `getEllipse` conversion (claim C5) is additionally embedded over the
  real numbers, where Math.cos/sin/acos/sqrt are the genuine functions.
-/

set_option maxHeartbeats 1600000

namespace Comic

/-- The recognized configuration record of `C.init`: `fsteps` (units per
subdivision step), `msteps` (minimum step count), `ff` (line fuzz factor),
`ffc` (curve fuzz factor), `precision` (decimal rounding digits used by the
local `round` helper, `roundFactor = 10^precision`). -/
structure Config where
  fsteps : ℚ
  msteps : ℕ
  ff : ℚ
  ffc : ℚ
  precision : ℕ
deriving DecidableEq

/-- Default options set at startup: fsteps=50, msteps=4, ff=8, ffc=ff/20=0.4,
precision=10. -/
def defaultConfig : Config := ⟨50, 4, 8, 2/5, 10⟩

/-- The local `round` helper of comic.js:
`Math.round(x * roundFactor) / roundFactor`, where JavaScript `Math.round x`
is `floor (x + 0.5)`. -/
def jround (cfg : Config) (x : ℚ) : ℚ :=
  ((⌊x * 10 ^ cfg.precision + 1/2⌋ : ℤ) : ℚ) / 10 ^ cfg.precision

/-- One command of the assembled path descriptor string `pathStr`:
`move x y` is the token group `M x y`, `quad cx cy x y` the token group
`Q cx cy x y`, and `close` the close marker `z` appended by the `Z` case of
`rePath`. -/
inductive PathCmd where
  | move (x y : ℚ)
  | quad (cx cy x y : ℚ)
  | close
deriving DecidableEq

/-- The mutable state of the SVG path sink: the descriptor built so far
(`pathStr` as a command list), the pen position `C.pathPos`, and the index of
the next unconsumed `Math.random()` value. -/
structure DrawState where
  cmds : List PathCmd
  pos : ℚ × ℚ
  k : ℕ
deriving DecidableEq

/-- The state produced by `begin` for SVG sinks: `pathStr = ""` and
`C.pathPos = (0,0)`. -/
def initState : DrawState := ⟨[], (0, 0), 0⟩

/-- One segment emission `(x0,y0,cx,cy,x1,y1)` handed to the `path` sink. -/
structure Seg where
  x0 : ℚ
  y0 : ℚ
  cx : ℚ
  cy : ℚ
  x1 : ℚ
  y1 : ℚ
deriving DecidableEq

/-- The SVG branch of the `path` sink: round all six coordinates, emit
`M x0 y0 Q cx cy x1 y1` when the start differs from the pen position or the
descriptor is empty, otherwise emit only `Q cx cy x1 y1`; then set
`C.pathPos` to the rounded end point. -/
def pathEmit (cfg : Config) (x0 y0 cx cy x1 y1 : ℚ) (st : DrawState) : DrawState :=
  let x0 := jround cfg x0
  let y0 := jround cfg y0
  let cx := jround cfg cx
  let cy := jround cfg cy
  let x1 := jround cfg x1
  let y1 := jround cfg y1
  if st.pos.1 ≠ x0 ∨ st.pos.2 ≠ y0 ∨ st.cmds = [] then
    ⟨st.cmds ++ [.move x0 y0, .quad cx cy x1 y1], (x1, y1), st.k⟩
  else
    ⟨st.cmds ++ [.quad cx cy x1 y1], (x1, y1), st.k⟩

/-- Push a list of segment emissions through the path sink in order. -/
def emitAll (cfg : Config) (segs : List Seg) (st : DrawState) : DrawState :=
  segs.foldl (fun s g => pathEmit cfg g.x0 g.y0 g.cx g.cy g.x1 g.y1 s) st

/-- The `fuzz` helper `val + f * (Math.random() - 0.5)`; the random draw is
passed in explicitly as `r`. -/
def fuzz (r : ℚ) (val f : ℚ) : ℚ := val + f * (r - 1/2)

/-- Oracles for the JavaScript library calls the engine makes on floats:
`rng n` is the n-th value returned by `Math.random()`, `sqrtO` models
`Math.sqrt`, `sinO`/`cosO`/`acosO` model `Math.sin`/`Math.cos`/`Math.acos`,
`piO` models `Math.PI`, and `pow09O v`, `pow025O v`, `pow035O v`, `pow075O v`
model `Math.pow v e` for the fixed exponents 0.9, 0.25, 0.35 and 0.75. -/
structure Env where
  cfg : Config
  rng : ℕ → ℚ
  sqrtO : ℚ → ℚ
  sinO : ℚ → ℚ
  cosO : ℚ → ℚ
  acosO : ℚ → ℚ
  piO : ℚ
  pow09O : ℚ → ℚ
  pow025O : ℚ → ℚ
  pow035O : ℚ → ℚ
  pow075O : ℚ → ℚ

/-- The `dist2` helper: `Math.sqrt (dx*dx + dy*dy)` through the sqrt oracle. -/
def dist2 (env : Env) (x0 y0 x1 y1 : ℚ) : ℚ :=
  env.sqrtO ((x1 - x0) * (x1 - x0) + (y1 - y0) * (y1 - y0))

/-- The quintic hand-movement ease of `cLine`:
`ft t = 15 t^4 - 6 t^5 - 10 t^3`. -/
def lineEase (t : ℚ) : ℚ := 15 * t ^ 4 - 6 * t ^ 5 - 10 * t ^ 3

/-- The `handMovement` interpolation `x0 + (x0 - x1) * ft t`. -/
def linePoint (x0 x1 t : ℚ) : ℚ := x0 + (x0 - x1) * lineEase t

/-- The step count of `cLine`: `steps = Math.ceil (d / fsteps)`, clamped up
to `msteps` when smaller.  JavaScript float semantics at the degenerate
configuration `fsteps = 0`:
`d > 0` gives `d / 0 = Infinity`, so the drawing loop bound is infinite and
the loop never terminates — encoded as `none`;
`d = 0` gives `NaN`, every comparison with `NaN` is false, so the clamp does
not fire and the loop body never runs — encoded as `some 0`;
`d < 0` gives `-Infinity`, which the clamp raises to `msteps`. -/
def lineSteps (cfg : Config) (d : ℚ) : Option ℕ :=
  if cfg.fsteps = 0 then
    if d < 0 then some cfg.msteps
    else if d = 0 then some 0
    else none
  else some (max (⌈d / cfg.fsteps⌉.toNat) cfg.msteps)

/-- The fuzz factor used by `cLine`:
`f = ff / ((steps == msteps) ? 1.4 : 1)`. -/
def lineFuzz (cfg : Config) (steps : ℕ) : ℚ :=
  cfg.ff / (if steps = cfg.msteps then 7/5 else 1)

/-- The segments emitted by the `cLine` loop: the i-th segment (0-based here,
`i+1` in the source loop) runs from the eased point at `t = i/steps` to the
eased point at `t = (i+1)/steps`, its control point is the fuzzed start
point; the two `Math.random()` draws of step i have indices `k+2i` and
`k+2i+1`. -/
def cLineEmit (rng : ℕ → ℚ) (k : ℕ) (x0 y0 x1 y1 f : ℚ) (n : ℕ) : List Seg :=
  (List.range n).map fun (i : ℕ) =>
    let t0 : ℚ := (i : ℚ) / (n : ℚ)
    let t1 : ℚ := ((i : ℚ) + 1) / (n : ℚ)
    let xt0 := linePoint x0 x1 t0
    let yt0 := linePoint y0 y1 t0
    ⟨xt0, yt0,
     fuzz (rng (k + 2 * i)) xt0 f,
     fuzz (rng (k + 2 * i + 1)) yt0 f,
     linePoint x0 x1 t1, linePoint y0 y1 t1⟩

/-- The private `cLine` drawer.  When `lineSteps` is `none` the source loop
does not terminate and no final state exists; the embedding returns the
input state unchanged in that case (`getD 0` emits nothing) and theorems
about `cLine` restrict to the terminating case through `lineSteps`. -/
def cLine (env : Env) (x0 y0 x1 y1 : ℚ) (st : DrawState) : DrawState :=
  let d := dist2 env x0 y0 x1 y1
  let n := (lineSteps env.cfg d).getD 0
  let f := lineFuzz env.cfg n
  emitAll env.cfg (cLineEmit env.rng st.k x0 y0 x1 y1 f n)
    ⟨st.cmds, st.pos, st.k + 2 * n⟩

/-- Exact rational square root for perfect squares, used to instantiate the
`Math.sqrt` oracle in concrete witnesses. -/
def qsqrt (q : ℚ) : ℚ := ((Nat.sqrt q.num.toNat : ℤ) : ℚ) / (Nat.sqrt q.den : ℚ)

/-- JavaScript truncation toward zero, on rationals. -/
def qtrunc (x : ℚ) : ℤ := if 0 ≤ x then ⌊x⌋ else ⌈x⌉

/-- The JavaScript `%` operator on rationals: `a - b * trunc (a / b)`. -/
def jmodQ (a b : ℚ) : ℚ := a - b * (qtrunc (a / b) : ℚ)

/-- A concrete oracle environment (default configuration, `Math.random`
constantly 1/2, exact square roots on perfect squares); used by witnesses. -/
def witEnv : Env :=
  ⟨defaultConfig, fun _ => 1/2, qsqrt,
   fun _ => 0, fun _ => 1, fun _ => 0, 355/113,
   fun _ => 1, fun _ => 1, fun _ => 1, fun _ => 1⟩

/-- First `M x y` token of a descriptor, as the claim "first MoveTo
coordinate". -/
def firstMoveCoord : List PathCmd → Option (ℚ × ℚ)
  | [] => none
  | .move x y :: _ => some (x, y)
  | _ :: rest => firstMoveCoord rest

/-- The end point a command leaves the pen at. -/
def cmdEnd : PathCmd → Option (ℚ × ℚ)
  | .move x y => some (x, y)
  | .quad _ _ x y => some (x, y)
  | .close => none

/-- End point of the final command of a descriptor. -/
def lastEnd (l : List PathCmd) : Option (ℚ × ℚ) := l.getLast? >>= cmdEnd

/-- Boolean test for a `Q` command, for counting emitted segments. -/
def isQuadB : PathCmd → Bool
  | .quad _ _ _ _ => true
  | _ => false

/-- Number of `Q` token groups in a descriptor. -/
def quadCount (l : List PathCmd) : ℕ := l.countP isQuadB

/-- The `pf` helper of `bsplit`: multiply a point (a coordinate list) by a
scalar factor. -/
def pf (p : List ℚ) (f : ℚ) : List ℚ := p.map fun x => f * x

/-- The `pp` helper of `bsplit`: add two points as vectors, truncating to the
shorter coordinate list. -/
def pp (p1 p2 : List ℚ) : List ℚ := List.zipWith (· + ·) p1 p2

/-- Column `j` of the De Casteljau coefficient table of `bsplit`:
`bcoef t0 pts j` lists `b[i][j]` for `i = 0 .. n-j`, where
`b[i][0] = points[i]` and
`b[i][j] = pp (pf b[i][j-1] (1-t0)) (pf b[i+1][j-1] t0)`. -/
def bcoef (t0 : ℚ) (pts : List (List ℚ)) : ℕ → List (List ℚ)
  | 0 => pts
  | j + 1 =>
    List.zipWith (fun p q => pp (pf p (1 - t0)) (pf q t0))
      (bcoef t0 pts j) (bcoef t0 pts j).tail

/-- De Casteljau split of an n-th degree Bezier curve at parameter `t0`:
the first returned control sequence is `b[0][j]` for `j = 0..n`, the second
is `b[j][n-j]` for `j = 0..n` (the last entry of column `n-j`). -/
def bsplit (pts : List (List ℚ)) (t0 : ℚ) : List (List ℚ) × List (List ℚ) :=
  let n := pts.length - 1
  ((List.range (n + 1)).map fun j => (bcoef t0 pts j).headD [],
   (List.range (n + 1)).map fun j => (bcoef t0 pts (n - j)).getLastD [])

/-- One repeated-linear-interpolation pass of De Casteljau evaluation. -/
def dcReduce (t : ℚ) (ps : List (List ℚ)) : List (List ℚ) :=
  List.zipWith (fun p q => pp (pf p (1 - t)) (pf q t)) ps ps.tail

/-- Fuel-indexed core of `bezEval`. -/
def bezEvalAux (t : ℚ) : ℕ → List (List ℚ) → List ℚ
  | 0, ps => ps.headD []
  | fuel + 1, ps =>
    if ps.length ≤ 1 then ps.headD [] else bezEvalAux t fuel (dcReduce t ps)

/-- Evaluation of the Bezier curve with the given control points at parameter
`t` (standard De Casteljau evaluation); this is the mathematical meaning of
a control-point sequence, used to state that `bsplit` is lossless. -/
def bezEval (ps : List (List ℚ)) (t : ℚ) : List ℚ := bezEvalAux t ps.length ps

/-- The step count of `cBezier2` / `cBezier3`:
`Math.ceil (Math.pow (d / fsteps) 0.9)` with `d = dist2(...) * 3`, through
the pow oracle.  JavaScript float semantics at degenerate configurations:
`fsteps = 0` with `d > 0` gives an infinite bound (`none`); `fsteps = 0` with
`d = 0` gives `NaN`, whose comparison with 0 is false, so the loop body never
runs (`some 0`); `fsteps = 0` with `d < 0` gives `Math.pow (-Infinity) 0.9 =
Infinity` (`none`); a negative finite quotient gives `Math.pow q 0.9 = NaN`
and the loop never runs (`some 0`). -/
def bezSteps (cfg : Config) (pow09 : ℚ → ℚ) (d : ℚ) : Option ℕ :=
  if cfg.fsteps = 0 then
    if d = 0 then some 0 else none
  else if d / cfg.fsteps < 0 then some 0
  else some (⌈pow09 (d / cfg.fsteps)⌉.toNat)

/-- The loop of `cBezier2`, counting the loop variable down from `steps`:
split the remaining curve at `1/i`, draw the peeled-off quadratic with a
fuzzed control point, continue with the remainder. -/
def cBez2Loop (env : Env) (f : ℚ) : ℕ → List (List ℚ) → DrawState → DrawState
  | 0, _, st => st
  | i + 1, curve2, st =>
    let pr := bsplit curve2 (1 / ((i : ℚ) + 1))
    let curve1 := pr.1
    let p0 := curve1.getD 0 []
    let pc := curve1.getD 1 []
    let p1 := curve1.getD 2 []
    let st' := pathEmit env.cfg (p0.getD 0 0) (p0.getD 1 0)
      (fuzz (env.rng st.k) (pc.getD 0 0) f)
      (fuzz (env.rng (st.k + 1)) (pc.getD 1 0) f)
      (p1.getD 0 0) (p1.getD 1 0) ⟨st.cmds, st.pos, st.k + 2⟩
    cBez2Loop env f i pr.2 st'

/-- The private `cBezier2` drawer (fuzz factor `ff * 0.8`). -/
def cBezier2 (env : Env) (x0 y0 cx cy x1 y1 : ℚ) (st : DrawState) : DrawState :=
  let d := dist2 env x0 y0 x1 y1 * 3
  let n := (bezSteps env.cfg env.pow09O d).getD 0
  let f := env.cfg.ff * (8/10)
  cBez2Loop env f n [[x0, y0], [cx, cy], [x1, y1]] st

/-- The loop of `cBezier3`: like `cBez2Loop` but on cubic control sequences,
emitting one quadratic whose control point is the fuzzed average of the two
peeled-off cubic control points. -/
def cBez3Loop (env : Env) (f : ℚ) : ℕ → List (List ℚ) → DrawState → DrawState
  | 0, _, st => st
  | i + 1, curve2, st =>
    let pr := bsplit curve2 (1 / ((i : ℚ) + 1))
    let curve1 := pr.1
    let p0 := curve1.getD 0 []
    let pc0 := curve1.getD 1 []
    let pc1 := curve1.getD 2 []
    let p1 := curve1.getD 3 []
    let st' := pathEmit env.cfg (p0.getD 0 0) (p0.getD 1 0)
      (fuzz (env.rng st.k) ((pc0.getD 0 0 + pc1.getD 0 0) / 2) f)
      (fuzz (env.rng (st.k + 1)) ((pc0.getD 1 0 + pc1.getD 1 0) / 2) f)
      (p1.getD 0 0) (p1.getD 1 0) ⟨st.cmds, st.pos, st.k + 2⟩
    cBez3Loop env f i pr.2 st'

/-- The private `cBezier3` drawer (fuzz factor `ff * 0.8`). -/
def cBezier3 (env : Env) (x0 y0 cx0 cy0 cx1 cy1 x1 y1 : ℚ) (st : DrawState) :
    DrawState :=
  let d := dist2 env x0 y0 x1 y1 * 3
  let n := (bezSteps env.cfg env.pow09O d).getD 0
  let f := env.cfg.ff * (8/10)
  cBez3Loop env f n [[x0, y0], [cx0, cy0], [cx1, cy1], [x1, y1]] st

/-- The step count of `cEllipse`: `Math.ceil (Math.pow (rh*rv) 0.25 * 3)`.
A negative product makes `Math.pow` return `NaN` and the loop never runs;
`Int.toNat` likewise sends non-positive counts to zero iterations. -/
def ellSteps (env : Env) (rh rv : ℚ) : ℕ :=
  if rh * rv < 0 then 0 else (⌈env.pow025O (rh * rv) * 3⌉).toNat

/-- The per-axis fuzz magnitude of `cEllipse`:
`ffc * Math.pow (r*3) 0.35 * Math.sqrt (r < 25 ? 25/r : 1)`. -/
def ellFuzz (env : Env) (r : ℚ) : ℚ :=
  env.cfg.ffc * env.pow035O (r * 3) * env.sqrtO (if r < 25 then 25 / r else 1)

/-- The arc loop of `cEllipse`: at each step advance `t1` by `segLength`,
keep the previous point as segment start, compute the next point on the
distorted rotated ellipse, and emit with the fuzzed start as control point.
Returns the final `(t1, x1, y1)` together with the state. -/
def cEllipseLoop (env : Env) (x y rxs rys cosRot sinRot fh fv segLength : ℚ) :
    ℕ → ℚ → ℚ → ℚ → DrawState → ℚ × ℚ × ℚ × DrawState
  | 0, t1, x1, y1, st => (t1, x1, y1, st)
  | r + 1, t1, x1, y1, st =>
    let t1' := t1 + segLength
    let x0 := x1
    let y0 := y1
    let cosT1rxs := rxs * env.cosO t1'
    let sinT1rys := rys * env.sinO t1'
    let x1' := x + cosT1rxs * cosRot - sinT1rys * sinRot
    let y1' := y + cosT1rxs * sinRot + sinT1rys * cosRot
    let st' := pathEmit env.cfg x0 y0 (fuzz (env.rng st.k) x0 fh)
      (fuzz (env.rng (st.k + 1)) y0 fv) x1' y1' ⟨st.cmds, st.pos, st.k + 2⟩
    cEllipseLoop env x y rxs rys cosRot sinRot fh fv segLength r t1' x1' y1' st'

/-- The private `cEllipse` drawer: sanitize the angles, distort the radii by
a random factor in `[0.95, 1.05]` per axis, draw a corrective line from the
ideal start point to the distorted start point, run the arc loop, and draw a
corrective line from the distorted end point to the ideal end point. -/
def cEllipse (env : Env) (x y rh rv rot0 start0 end0 : ℚ) (st : DrawState) :
    DrawState :=
  let PI2 := env.piO * 2
  let start := min (PI2 - (5/1000) * PI2) start0
  let en := min PI2 end0
  let rot := min PI2 rot0
  let cosRot := env.cosO rot
  let sinRot := env.sinO rot
  let steps := ellSteps env rh rv
  let fh := ellFuzz env rh
  let fv := ellFuzz env rv
  let xs := 95/100 + env.rng st.k * (1/10)
  let ys := 95/100 + env.rng (st.k + 1) * (1/10)
  let st := ⟨st.cmds, st.pos, st.k + 2⟩
  let rxs := rh * xs
  let rys := rv * ys
  let segLength := (en - start) / (steps : ℚ)
  let cosT1rxs := rxs * env.cosO start
  let sinT1rys := rys * env.sinO start
  let x1 := x + cosT1rxs * cosRot - sinT1rys * sinRot
  let y1 := y + cosT1rxs * sinRot + sinT1rys * cosRot
  let st := cLine env
    (x + rh * env.cosO start * cosRot - rv * env.sinO start * sinRot)
    (y + rh * env.cosO start * sinRot + rv * env.sinO start * cosRot)
    x1 y1 st
  let r := cEllipseLoop env x y rxs rys cosRot sinRot fh fv segLength steps
    start x1 y1 st
  cLine env r.2.1 r.2.2.1
    (x + rh * env.cosO r.1 * cosRot - rv * env.sinO r.1 * sinRot)
    (y + rh * env.cosO r.1 * sinRot + rv * env.sinO r.1 * cosRot) r.2.2.2

/-- The arc loop of `cCircle`, on the distorted circle radii. -/
def cCircleLoop (env : Env) (x y rxs rys f segLength : ℚ) :
    ℕ → ℚ → ℚ → ℚ → DrawState → ℚ × ℚ × ℚ × DrawState
  | 0, t1, x1, y1, st => (t1, x1, y1, st)
  | r + 1, t1, x1, y1, st =>
    let t1' := t1 + segLength
    let x0 := x1
    let y0 := y1
    let x1' := x + env.cosO t1' * rxs
    let y1' := y + env.sinO t1' * rys
    let st' := pathEmit env.cfg x0 y0 (fuzz (env.rng st.k) x0 f)
      (fuzz (env.rng (st.k + 1)) y0 f) x1' y1' ⟨st.cmds, st.pos, st.k + 2⟩
    cCircleLoop env x y rxs rys f segLength r t1' x1' y1' st'

/-- The private `cCircle` drawer: steps `ceil (sqrt r * 3)`, fuzz
`ffc * steps^0.75 * sqrt (r < 25 ? 25/r : 1)`, anti-correlated random radius
distortion `xs` / `2 - xs`, with the same corrective start and end lines as
`cEllipse`. -/
def cCircle (env : Env) (x y r start0 end0 : ℚ) (st : DrawState) : DrawState :=
  let PI2 := env.piO * 2
  let start := min (PI2 - (5/1000) * PI2) start0
  let en := min PI2 end0
  let steps := (⌈env.sqrtO r * 3⌉).toNat
  let f := env.cfg.ffc * env.pow075O (steps : ℚ) *
    env.sqrtO (if r < 25 then 25 / r else 1)
  let xs := 95/100 + env.rng st.k * (1/10)
  let st := ⟨st.cmds, st.pos, st.k + 1⟩
  let rxs := r * xs
  let rys := r * (2 - xs)
  let segLength := (en - start) / (steps : ℚ)
  let x1 := x + env.cosO start * rxs
  let y1 := y + env.sinO start * rys
  let st := cLine env (x + env.cosO start * r) (y + env.sinO start * r) x1 y1 st
  let res := cCircleLoop env x y rxs rys f segLength steps start x1 y1 st
  cLine env res.2.1 res.2.2.1 (x + env.cosO res.1 * r) (y + env.sinO res.1 * r)
    res.2.2.2

/-- The private `cRect` drawer: clamp the corner radii to half the width and
height, then alternate the four straight sides with the four quadrant arcs
(the arcs only when `rh > 0`). -/
def cRect (env : Env) (x0 y0 width height rh0 rv0 : ℚ) (st : DrawState) :
    DrawState :=
  let rh := min rh0 (width / 2)
  let rv := min rv0 (height / 2)
  let x1 := x0 + width
  let y1 := y0 + height
  let halfPI := env.piO / 2
  let st := cLine env (x0 + rh) y0 (x1 - rh) y0 st
  let st := if 0 < rh then
    cEllipse env (x1 - rh) (y0 + rv) rh rv 0 (halfPI * 3) (env.piO * 2) st
    else st
  let st := cLine env x1 (y0 + rv) x1 (y1 - rv) st
  let st := if 0 < rh then
    cEllipse env (x1 - rh) (y1 - rv) rh rv 0 0 halfPI st
    else st
  let st := cLine env (x1 - rh) y1 (x0 + rh) y1 st
  let st := if 0 < rh then
    cEllipse env (x0 + rh) (y1 - rv) rh rv 0 halfPI env.piO st
    else st
  let st := cLine env x0 (y1 - rv) x0 (y0 + rv) st
  if 0 < rh then
    cEllipse env (x0 + rh) (y0 + rv) rh rv 0 env.piO (halfPI * 3) st
    else st

/-- The `cTrian` drawer: three chained lines. -/
def cTrian (env : Env) (x0 y0 x1 y1 x2 y2 : ℚ) (st : DrawState) : DrawState :=
  let st := cLine env x0 y0 x1 y1 st
  let st := cLine env x1 y1 x2 y2 st
  cLine env x2 y2 x0 y0 st

/-- The mathematical library functions `getEllipse` calls, abstracted over
the coordinate field so that the same translation serves both the exact real
semantics (claim C5) and the oracle-based rational pipeline. -/
structure TrigOps (α : Type) where
  sin : α → α
  cos : α → α
  acos : α → α
  sqrt : α → α
  trunc : α → α

/-- The JavaScript `%` operator: `a - b * trunc (a / b)`. -/
def jmodT [Field α] (ops : TrigOps α) (a b : α) : α := a - b * ops.trunc (a / b)

/-- The inner `angle` helper of `getEllipse`: signed angle between `u` and
`v`, the sign taken from the cross product.  The source divides by
`Math.sqrt(u.x*u.x + u.y*u.y)` twice (the second factor uses `u` where the
normalization of `v` would use `v`); the translation reproduces this. -/
def angleT [LinearOrderedField α] (ops : TrigOps α) (u v : α × α) : α :=
  (if 0 < u.1 * v.2 - u.2 * v.1 then 1 else -1) *
    ops.acos ((u.1 * v.1 + u.2 * v.2) /
      (ops.sqrt (u.1 * u.1 + u.2 * u.2) * ops.sqrt (u.1 * u.1 + u.2 * u.2)))

/-- The `getEllipse` conversion from the SVG elliptic-arc parameterization
`(ps, pe, rh, rv, rot, fa, fs)` to the center parameterization: returns the
center point and the pair `(startAngle, endAngle)`. -/
def getEllipse [LinearOrderedField α] (ops : TrigOps α) (ps pe : α × α)
    (rh0 rv0 rot0 : α) (fa fs : Bool) : (α × α) × (α × α) :=
  let rot := jmodT ops rot0 360
  let rh := |rh0|
  let rv := |rv0|
  let cosRot := ops.cos rot
  let sinRot := ops.sin rot
  let x := cosRot * (ps.1 - pe.1) / 2 + sinRot * (ps.2 - pe.2) / 2
  let y := -1 * sinRot * (ps.1 - pe.1) / 2 + cosRot * (ps.2 - pe.2) / 2
  let rh2 := rh * rh
  let rv2 := rv * rv
  let x2 := x * x
  let y2 := y * y
  let fr := (if fa = fs then -1 else 1) *
    ops.sqrt ((rh2 * (rv2 - y2) - rv2 * x2) / (rh2 * y2 + rv2 * x2))
  let xt := fr * rh * y / rv
  let yt := -1 * fr * rv * x / rh
  let cx := cosRot * xt - sinRot * yt + (ps.1 + pe.1) / 2
  let cy := sinRot * xt + cosRot * yt + (ps.2 + pe.2) / 2
  let vt := ((x - xt) / rh, (y - yt) / rv)
  let phi1 := angleT ops (1, 0) vt
  let phiD := jmodT ops (angleT ops vt ((-x - xt) / rh, (-y - yt) / rv)) 360
  let phi2 := phi1 + phiD
  ((cx, cy), (phi1, phi2))

/-- The rational `TrigOps` built from the oracle environment. -/
def qTrigOps (env : Env) : TrigOps ℚ :=
  ⟨env.sinO, env.cosO, env.acosO, env.sqrtO, fun q => (qtrunc q : ℚ)⟩

/-- `getEllipse` as used by the `rePath` pipeline, over the rational
oracles. -/
def getEllipseQ (env : Env) (ps pe : ℚ × ℚ) (rh0 rv0 rot0 : ℚ) (fa fs : Bool) :
    (ℚ × ℚ) × (ℚ × ℚ) :=
  getEllipse (qTrigOps env) ps pe rh0 rv0 rot0 fa fs

/-- The body of one iteration of the elliptic-arc (`A`/`a`) loop of
`rePath`: take the absolute radii, reduce the rotation mod 360, decode the
flags by JavaScript truthiness, resolve the end point against the origin,
then: skip when the end point equals the current position; skip when both
radii are zero; draw a horizontal (`ry = 0`) or vertical (`rx = 0`) line to
the modified end point when exactly one radius is zero; otherwise convert
through `getEllipse` and call the `cEllipse` drawer.  Returns the new
current position and draw state.  The function is total: no degenerate case
raises an error. -/
def arcStep (env : Env) (pos org : ℚ × ℚ) (rx0 ry0 rotRaw faN fsN ex ey : ℚ)
    (st : DrawState) : (ℚ × ℚ) × DrawState :=
  let rx := |rx0|
  let ry := |ry0|
  let rot := jmodQ rotRaw 360
  let fa := if faN = 0 then false else true
  let fs := if fsN = 0 then false else true
  let p1 := (org.1 + ex, org.2 + ey)
  if p1.1 = pos.1 ∧ p1.2 = pos.2 then (pos, st)
  else if rx = 0 ∧ ry = 0 then (pos, st)
  else if rx = 0 ∨ ry = 0 then
    let p1' := if ry = 0 then (p1.1, pos.2) else (pos.1, p1.2)
    (p1', cLine env pos.1 pos.2 p1'.1 p1'.2 st)
  else
    let retval := getEllipseQ env pos p1 rx ry rot fa fs
    (p1, cEllipse env retval.1.1 retval.1.2 rx ry rot retval.2.1 retval.2.2 st)

/-- One parsed source-path command: the command letter and its numeric
arguments, as produced by `parsePath`. -/
structure SCmd where
  name : String
  args : List ℚ

/-- The interpreter state of `rePath`: current position `pos`, path-start
position `ipos`, the last cubic and quadratic control points (for the smooth
command families), and the draw state of the sink. -/
structure RePathSt where
  pos : ℚ × ℚ
  ipos : ℚ × ℚ
  cpos : Option (ℚ × ℚ)
  qpos : Option (ℚ × ℚ)
  dst : DrawState

/-- The implicit line-to loop after a move-to.  The source runs `setOrg`
only after each iteration, so the first implicit line still uses the origin
`org0` computed before the move; the origin of later iterations is `(0,0)`
or the then-current position according to `upper`. -/
def implicitLines (env : Env) (upper : Bool) :
    (ℚ × ℚ) → List ℚ → RePathSt → RePathSt
  | _, [], s => s
  | _, [_], s => s
  | org, ax :: ay :: rest, s =>
    let p := (org.1 + ax, org.2 + ay)
    let dst := cLine env s.pos.1 s.pos.2 p.1 p.2 s.dst
    implicitLines env upper (if upper then (0, 0) else p) rest
      ⟨p, s.ipos, s.cpos, s.qpos, dst⟩

/-- The `L`/`l` loop: pairs of coordinates, each a `cLine` from the current
position. -/
def lineLoop (env : Env) (upper : Bool) : List ℚ → RePathSt → RePathSt
  | [], s => s
  | [_], s => s
  | ax :: ay :: rest, s =>
    let org : ℚ × ℚ := if upper then (0, 0) else s.pos
    let p := (org.1 + ax, org.2 + ay)
    let dst := cLine env s.pos.1 s.pos.2 p.1 p.2 s.dst
    lineLoop env upper rest ⟨p, s.ipos, s.cpos, s.qpos, dst⟩

/-- The `H`/`h` loop: horizontal line-tos. -/
def hLoop (env : Env) (upper : Bool) : List ℚ → RePathSt → RePathSt
  | [], s => s
  | ax :: rest, s =>
    let org : ℚ × ℚ := if upper then (0, 0) else s.pos
    let p := (org.1 + ax, s.pos.2)
    let dst := cLine env s.pos.1 s.pos.2 p.1 p.2 s.dst
    hLoop env upper rest ⟨p, s.ipos, s.cpos, s.qpos, dst⟩

/-- The `V`/`v` loop: vertical line-tos. -/
def vLoop (env : Env) (upper : Bool) : List ℚ → RePathSt → RePathSt
  | [], s => s
  | ay :: rest, s =>
    let org : ℚ × ℚ := if upper then (0, 0) else s.pos
    let p := (s.pos.1, org.2 + ay)
    let dst := cLine env s.pos.1 s.pos.2 p.1 p.2 s.dst
    vLoop env upper rest ⟨p, s.ipos, s.cpos, s.qpos, dst⟩

/-- The `Q`/`q` loop: quadratic Beziers, remembering the control point. -/
def quadLoop (env : Env) (upper : Bool) : List ℚ → RePathSt → RePathSt
  | [], s => s
  | [_], s => s
  | [_, _], s => s
  | [_, _, _], s => s
  | ax :: ay :: bx :: byy :: rest, s =>
    let org : ℚ × ℚ := if upper then (0, 0) else s.pos
    let p1 := (org.1 + ax, org.2 + ay)
    let p2 := (org.1 + bx, org.2 + byy)
    let dst := cBezier2 env s.pos.1 s.pos.2 p1.1 p1.2 p2.1 p2.2 s.dst
    quadLoop env upper rest ⟨p2, s.ipos, s.cpos, some p1, dst⟩

/-- The `T`/`t` loop: smooth quadratic Beziers, reflecting the last
quadratic control point (or using the current position when unset). -/
def tLoop (env : Env) (upper : Bool) : List ℚ → RePathSt → RePathSt
  | [], s => s
  | [_], s => s
  | bx :: byy :: rest, s =>
    let org : ℚ × ℚ := if upper then (0, 0) else s.pos
    let p2 := (org.1 + bx, org.2 + byy)
    let p1 := match s.qpos with
      | none => s.pos
      | some q => (2 * s.pos.1 - q.1, 2 * s.pos.2 - q.2)
    let dst := cBezier2 env s.pos.1 s.pos.2 p1.1 p1.2 p2.1 p2.2 s.dst
    tLoop env upper rest ⟨p2, s.ipos, s.cpos, some p1, dst⟩

/-- The `C`/`c` loop: cubic Beziers, remembering the second control point. -/
def cubicLoop (env : Env) (upper : Bool) : List ℚ → RePathSt → RePathSt
  | [], s => s
  | [_], s => s
  | [_, _], s => s
  | [_, _, _], s => s
  | [_, _, _, _], s => s
  | [_, _, _, _, _], s => s
  | ax :: ay :: bx :: byy :: cx :: cyy :: rest, s =>
    let org : ℚ × ℚ := if upper then (0, 0) else s.pos
    let p1 := (org.1 + ax, org.2 + ay)
    let p2 := (org.1 + bx, org.2 + byy)
    let p3 := (org.1 + cx, org.2 + cyy)
    let dst := cBezier3 env s.pos.1 s.pos.2 p1.1 p1.2 p2.1 p2.2 p3.1 p3.2 s.dst
    cubicLoop env upper rest ⟨p3, s.ipos, some p2, s.qpos, dst⟩

/-- The `S`/`s` loop: smooth cubic Beziers, reflecting the last cubic
control point (or using the current position when unset). -/
def sLoop (env : Env) (upper : Bool) : List ℚ → RePathSt → RePathSt
  | [], s => s
  | [_], s => s
  | [_, _], s => s
  | [_, _, _], s => s
  | ax :: ay :: bx :: byy :: rest, s =>
    let org : ℚ × ℚ := if upper then (0, 0) else s.pos
    let p2 := (org.1 + ax, org.2 + ay)
    let p3 := (org.1 + bx, org.2 + byy)
    let p1 := match s.cpos with
      | none => s.pos
      | some cq => (2 * s.pos.1 - cq.1, 2 * s.pos.2 - cq.2)
    let dst := cBezier3 env s.pos.1 s.pos.2 p1.1 p1.2 p2.1 p2.2 p3.1 p3.2 s.dst
    sLoop env upper rest ⟨p3, s.ipos, some p2, s.qpos, dst⟩

/-- The `A`/`a` loop: groups of seven arc arguments, each handled by
`arcStep`. -/
def arcLoop (env : Env) (upper : Bool) : List ℚ → RePathSt → RePathSt
  | [], s => s
  | [_], s => s
  | [_, _], s => s
  | [_, _, _], s => s
  | [_, _, _, _], s => s
  | [_, _, _, _, _], s => s
  | [_, _, _, _, _, _], s => s
  | rx :: ry :: rot :: fa :: fs :: ax :: ay :: rest, s =>
    let org : ℚ × ℚ := if upper then (0, 0) else s.pos
    let r := arcStep env s.pos org rx ry rot fa fs ax ay s.dst
    arcLoop env upper rest ⟨r.1, s.ipos, s.cpos, s.qpos, r.2⟩

/-- Dispatch of one parsed command inside `rePath`.  `first` is true for the
very first command, where a relative move-to is forced absolute
(`moveMadeAbs`); afterwards the source resets `name` to `"m"` or `"M"`, so
the implicit line-tos of a non-first `m` use the absolute origin from the
second one on.  Malformed argument lists (impossible through `parsePath`,
which emits fixed-arity commands) simply run their loop zero times. -/
def mCase (env : Env) (moveMadeAbs : Bool) (name : String) :
    List ℚ → RePathSt → RePathSt
  | [], s => ⟨s.pos, s.ipos, none, none, s.dst⟩
  | [_], s => ⟨s.pos, s.ipos, none, none, s.dst⟩
  | ax :: ay :: rest, s =>
    let org0 : ℚ × ℚ := if name = "M" then (0, 0) else s.pos
    let p := (org0.1 + ax, org0.2 + ay)
    implicitLines env (!moveMadeAbs) org0 rest ⟨p, p, none, none, s.dst⟩

def reCmdCore (env : Env) (moveMadeAbs : Bool) (name : String)
    (args : List ℚ) (s : RePathSt) : RePathSt :=
  if name = "M" ∨ name = "m" then
    mCase env moveMadeAbs name args s
  else if name = "Q" ∨ name = "q" then
    quadLoop env (name = "Q") args ⟨s.pos, s.ipos, none, s.qpos, s.dst⟩
  else if name = "T" ∨ name = "t" then
    tLoop env (name = "T") args ⟨s.pos, s.ipos, none, s.qpos, s.dst⟩
  else if name = "C" ∨ name = "c" then
    cubicLoop env (name = "C") args ⟨s.pos, s.ipos, s.cpos, none, s.dst⟩
  else if name = "S" ∨ name = "s" then
    sLoop env (name = "S") args ⟨s.pos, s.ipos, s.cpos, none, s.dst⟩
  else if name = "A" ∨ name = "a" then
    arcLoop env (name = "A") args ⟨s.pos, s.ipos, none, none, s.dst⟩
  else if name = "L" ∨ name = "l" then
    lineLoop env (name = "L") args ⟨s.pos, s.ipos, none, none, s.dst⟩
  else if name = "H" ∨ name = "h" then
    hLoop env (name = "H") args ⟨s.pos, s.ipos, none, none, s.dst⟩
  else if name = "V" ∨ name = "v" then
    vLoop env (name = "V") args ⟨s.pos, s.ipos, none, none, s.dst⟩
  else if name = "Z" ∨ name = "z" then
    let dst := cLine env s.pos.1 s.pos.2 s.ipos.1 s.ipos.2 s.dst
    ⟨s.ipos, s.ipos, none, none, ⟨dst.cmds ++ [.close], dst.pos, dst.k⟩⟩
  else s

def reCmd (env : Env) (first : Bool) (c : SCmd) (s : RePathSt) : RePathSt :=
  let moveMadeAbs : Bool := first && (c.name == "m")
  let name := if moveMadeAbs then "M" else c.name
  reCmdCore env moveMadeAbs name c.args s

/-- Fold of `reCmd` over the command list, tracking whether the command is
the first one. -/
def rePathGo (env : Env) : List SCmd → Bool → RePathSt → RePathSt
  | [], _, s => s
  | c :: rest, first, s => rePathGo env rest false (reCmd env first c s)

/-- The `rePath` reinterpreter: replay a parsed command list through the
shape drawers, starting at position `(0,0)` with no remembered control
points. -/
def rePath (env : Env) (cmds : List SCmd) (st : DrawState) : DrawState :=
  (rePathGo env cmds true ⟨(0, 0), (0, 0), none, none, st⟩).dst

/-- A DOM-like node as `unWrap` inspects it: an optional tag name, the
child elements, an optional `node` wrapper target, an optional
`contentDocument`, and an optional `parent` property. -/
inductive Elem where
  | mk (tag : Option String) (children : List Elem) (node : Option Elem)
    (cd : Option Elem) (parent : Option Elem)

/-- Tag name accessor. -/
def Elem.tag : Elem → Option String
  | .mk t _ _ _ _ => t

/-- Children accessor. -/
def Elem.children : Elem → List Elem
  | .mk _ c _ _ _ => c

/-- The `node` property. -/
def Elem.node : Elem → Option Elem
  | .mk _ _ n _ _ => n

/-- The `contentDocument` property. -/
def Elem.cd : Elem → Option Elem
  | .mk _ _ _ d _ => d

/-- The `parent` property. -/
def Elem.parentE : Elem → Option Elem
  | .mk _ _ _ _ p => p

/-- The `unCD` helper: unwrap `contentDocument` when present. -/
def unCD (e : Elem) : Elem :=
  match e.cd with
  | some d => d
  | none => e

/-- The `unNode` helper: step into `e.node` when it is an object with a
string `tagName`. -/
def unNode (e : Elem) : Elem :=
  match e.node with
  | some n => match n.tag with
    | some _ => n
    | none => e
  | none => e

/-- The `checkTag` helper: the tag name is one of the accepted drawing tags
`svg`, `g`. -/
def checkTag (e : Elem) : Bool :=
  match e.tag with
  | some t => t == "svg" || t == "g"
  | none => false

/-- The two ways a call of `unWrap` can throw: the explicit
`"error: no drawing element given"` message (the `UnrecognizedInputError` of
the specification) or a JavaScript `TypeError`. -/
inductive JsErr where
  | unrecognized
  | typeError
deriving DecidableEq

/-- The `unWrap` element discovery: normalize the input through `unCD` and
`unNode`, accept it if its tag matches, otherwise scan the direct children
(the source overwrites the `unCD` result with `unNode` applied to the raw
child, so only `unNode` is applied to children).  If no child matches and
the element carries a `parent` property, the source re-reads
`e.children[i]` with `i` already equal to `children.length`, obtaining
`undefined`, and the subsequent `.contentDocument` access throws a
`TypeError`; without a `parent` property the error message is thrown. -/
def unWrap (e : Elem) : Except JsErr Elem :=
  let e1 := unNode (unCD e)
  if checkTag e1 then .ok e1
  else
    match e1.children.find? (fun c => checkTag (unNode c)) with
    | some c => .ok (unNode c)
    | none =>
      if (e1.parentE).isSome then .error .typeError
      else .error .unrecognized

/-- Processing of the non-first list entries by `C.magic`: each is unwrapped
at the call site and then once more inside the recursive `C.magic` call;
the walk transform runs only on successfully discovered elements.  The
result collects the `(discovered, walk discovered)` replacement pairs
performed so far, and the error (if any) that aborted processing. -/
def magicTail (walk : Elem → Elem) :
    List Elem → List (Elem × Elem) → List (Elem × Elem) × Option JsErr
  | [], acc => (acc, none)
  | e :: rest, acc =>
    match unWrap e with
    | .error err => (acc, some err)
    | .ok s =>
      match unWrap s with
      | .error err => (acc, some err)
      | .ok s2 => magicTail walk rest (acc ++ [(s2, walk s2)])

/-- The `C.magic` entry point on a list of inputs: entries `1 .. n-1` are
processed first through recursive calls, then entry `0`; an error thrown by
`unWrap` aborts the call, leaving exactly the replacements performed before
it.  An empty list makes `unWrap` dereference `undefined`, a `TypeError`.
The tree walk itself is abstracted as `walk` (its drawing effects are
modelled separately through `rePath` and the shape drawers); the claims
settled against `magic` only concern inputs on which `walk` never runs. -/
def magic (walk : Elem → Elem) (svgs : List Elem) :
    List (Elem × Elem) × Option JsErr :=
  match svgs with
  | [] => ([], some .typeError)
  | e :: rest =>
    match magicTail walk rest [] with
    | (acc, some err) => (acc, some err)
    | (acc, none) =>
      match unWrap e with
      | .error err => (acc, some err)
      | .ok s => (acc ++ [(s, walk s)], none)

/-- The recognition procedure as the specification describes it: a drawable
element is discoverable in `e` when the normalized element itself, one of
its immediate children, or its parent carries an accepted tag. -/
def discoverableB (e : Elem) : Bool :=
  let e1 := unNode (unCD e)
  checkTag e1 || e1.children.any (fun c => checkTag (unNode c)) ||
    (match e1.parentE with
     | some p => checkTag (unNode (unCD p))
     | none => false)

/-- Propositional form of `discoverableB`. -/
def Discoverable (e : Elem) : Prop := discoverableB e = true

instance (e : Elem) : Decidable (Discoverable e) := by
  unfold Discoverable
  exact inferInstance

noncomputable section RealArc

/-- Truncation toward zero on the reals, the rounding of the JavaScript `%`
operator. -/
def truncR (x : ℝ) : ℝ := if 0 ≤ x then ((⌊x⌋ : ℤ) : ℝ) else ((⌈x⌉ : ℤ) : ℝ)

/-- The genuine real library functions, for the exact semantics of
`getEllipse`. -/
def realOps : TrigOps ℝ := ⟨Real.sin, Real.cos, Real.arccos, Real.sqrt, truncR⟩

/-- `getEllipse` over exact real arithmetic. -/
def getEllipseR (ps pe : ℝ × ℝ) (rh rv rot : ℝ) (fa fs : Bool) :
    (ℝ × ℝ) × (ℝ × ℝ) :=
  getEllipse realOps ps pe rh rv rot fa fs

/-- The standard point of the rotated ellipse with center `c`, radii
`rh`, `rv`, rotation `rot`, at angle `θ` — the formula the ellipse drawer
itself uses to reconstruct points from the center parameterization. -/
def ellipsePointR (c : ℝ × ℝ) (rh rv rot θ : ℝ) : ℝ × ℝ :=
  (c.1 + rh * Real.cos θ * Real.cos rot - rv * Real.sin θ * Real.sin rot,
   c.2 + rh * Real.cos θ * Real.sin rot + rv * Real.sin θ * Real.cos rot)

/-- The arc-local frame coordinates `(x, y)` of `getEllipse`: the half
difference of the end points rotated by `-rot`. -/
def arcLocal (ps pe : ℝ × ℝ) (rot : ℝ) : ℝ × ℝ :=
  (Real.cos rot * (ps.1 - pe.1) / 2 + Real.sin rot * (ps.2 - pe.2) / 2,
   -1 * Real.sin rot * (ps.1 - pe.1) / 2 + Real.cos rot * (ps.2 - pe.2) / 2)

/-- Non-degeneracy of the arc input: the radii are large enough to span the
end points, i.e. the radicand of the discriminant formula is nonnegative. -/
def ArcSpans (ps pe : ℝ × ℝ) (rh rv rot : ℝ) : Prop :=
  rv ^ 2 * (arcLocal ps pe rot).1 ^ 2 + rh ^ 2 * (arcLocal ps pe rot).2 ^ 2 ≤
    rh ^ 2 * rv ^ 2

end RealArc

/-! Helper lemmas about the path sink and the line drawer. -/

/-- No close marker among the listed commands (every command is an `M` or a
`Q` token group). -/
def NoClose (t : List PathCmd) : Prop := ∀ g ∈ t, g ≠ PathCmd.close

/-- Unfolding of `pathEmit` into its two branches. -/
theorem pathEmit_eq (cfg : Config) (a b c d e f : ℚ) (st : DrawState) :
    pathEmit cfg a b c d e f st =
      if st.pos.1 ≠ jround cfg a ∨ st.pos.2 ≠ jround cfg b ∨ st.cmds = [] then
        ⟨st.cmds ++ [.move (jround cfg a) (jround cfg b),
          .quad (jround cfg c) (jround cfg d) (jround cfg e) (jround cfg f)],
         (jround cfg e, jround cfg f), st.k⟩
      else
        ⟨st.cmds ++
          [.quad (jround cfg c) (jround cfg d) (jround cfg e) (jround cfg f)],
         (jround cfg e, jround cfg f), st.k⟩ := rfl

theorem pathEmit_pos (cfg : Config) (a b c d e f : ℚ) (st : DrawState) :
    (pathEmit cfg a b c d e f st).pos = (jround cfg e, jround cfg f) := by
  rw [pathEmit_eq]
  split <;> rfl

theorem pathEmit_k (cfg : Config) (a b c d e f : ℚ) (st : DrawState) :
    (pathEmit cfg a b c d e f st).k = st.k := by
  rw [pathEmit_eq]
  split <;> rfl

theorem pathEmit_extend (cfg : Config) (a b c d e f : ℚ) (st : DrawState) :
    ∃ t, (pathEmit cfg a b c d e f st).cmds = st.cmds ++ t ∧ t ≠ [] ∧
      NoClose t := by
  rw [pathEmit_eq]
  split
  · exact ⟨_, rfl, by simp, by intro g hg; fin_cases hg <;> simp⟩
  · exact ⟨_, rfl, by simp, by intro g hg; fin_cases hg; simp⟩

theorem pathEmit_getLast (cfg : Config) (a b c d e f : ℚ) (st : DrawState) :
    (pathEmit cfg a b c d e f st).cmds.getLast? =
      some (.quad (jround cfg c) (jround cfg d) (jround cfg e)
        (jround cfg f)) := by
  rw [pathEmit_eq]
  split
  · show (st.cmds ++ [_, _]).getLast? = _
    rw [show st.cmds ++ [PathCmd.move (jround cfg a) (jround cfg b),
      PathCmd.quad (jround cfg c) (jround cfg d) (jround cfg e) (jround cfg f)] =
      (st.cmds ++ [PathCmd.move (jround cfg a) (jround cfg b)]) ++
      [PathCmd.quad (jround cfg c) (jround cfg d) (jround cfg e)
        (jround cfg f)] by simp]
    exact List.getLast?_concat _
  · exact List.getLast?_concat _

theorem pathEmit_lastEnd (cfg : Config) (a b c d e f : ℚ) (st : DrawState) :
    lastEnd (pathEmit cfg a b c d e f st).cmds =
      some ((pathEmit cfg a b c d e f st).pos) := by
  rw [lastEnd, pathEmit_getLast, pathEmit_pos]
  rfl

theorem pathEmit_quadCount (cfg : Config) (a b c d e f : ℚ) (st : DrawState) :
    quadCount (pathEmit cfg a b c d e f st).cmds = quadCount st.cmds + 1 := by
  rw [pathEmit_eq]
  split <;> simp [quadCount, List.countP_append, isQuadB, List.countP_cons]

theorem pathEmit_head_of_empty (cfg : Config) (a b c d e f : ℚ)
    (st : DrawState) (h : st.cmds = []) :
    (pathEmit cfg a b c d e f st).cmds =
      [.move (jround cfg a) (jround cfg b),
       .quad (jround cfg c) (jround cfg d) (jround cfg e) (jround cfg f)] := by
  rw [pathEmit_eq]
  rw [if_pos (by exact Or.inr (Or.inr h))]
  simp [h]

theorem pathEmit_of_match (cfg : Config) (a b c d e f : ℚ) (st : DrawState)
    (h1 : st.cmds ≠ []) (h2 : st.pos = (jround cfg a, jround cfg b)) :
    (pathEmit cfg a b c d e f st).cmds =
      st.cmds ++
        [.quad (jround cfg c) (jround cfg d) (jround cfg e) (jround cfg f)] := by
  rw [pathEmit_eq]
  rw [if_neg]
  push_neg
  exact ⟨by rw [h2], by rw [h2], h1⟩

theorem emitAll_nil (cfg : Config) (st : DrawState) :
    emitAll cfg [] st = st := rfl

theorem emitAll_cons (cfg : Config) (g : Seg) (rest : List Seg)
    (st : DrawState) :
    emitAll cfg (g :: rest) st =
      emitAll cfg rest (pathEmit cfg g.x0 g.y0 g.cx g.cy g.x1 g.y1 st) := rfl

theorem emitAll_append (cfg : Config) (l1 l2 : List Seg) (st : DrawState) :
    emitAll cfg (l1 ++ l2) st = emitAll cfg l2 (emitAll cfg l1 st) := by
  simp [emitAll, List.foldl_append]

theorem emitAll_extend (cfg : Config) (segs : List Seg) (st : DrawState) :
    ∃ t, (emitAll cfg segs st).cmds = st.cmds ++ t ∧ NoClose t := by
  induction segs generalizing st with
  | nil => exact ⟨[], by simp [emitAll_nil], by intro g hg; simp at hg⟩
  | cons g rest ih =>
    rw [emitAll_cons]
    obtain ⟨t1, ht1, _, hnc1⟩ :=
      pathEmit_extend cfg g.x0 g.y0 g.cx g.cy g.x1 g.y1 st
    obtain ⟨t2, ht2, hnc2⟩ := ih (pathEmit cfg g.x0 g.y0 g.cx g.cy g.x1 g.y1 st)
    refine ⟨t1 ++ t2, ?_, ?_⟩
    · rw [ht2, ht1]
      simp
    · intro g hg
      rcases List.mem_append.mp hg with h | h
      · exact hnc1 g h
      · exact hnc2 g h

theorem emitAll_quadCount (cfg : Config) (segs : List Seg) (st : DrawState) :
    quadCount (emitAll cfg segs st).cmds = quadCount st.cmds + segs.length := by
  induction segs generalizing st with
  | nil => simp [emitAll_nil]
  | cons g rest ih =>
    rw [emitAll_cons, ih, pathEmit_quadCount]
    simp
    omega

theorem emitAll_pos_concat (cfg : Config) (l : List Seg) (g : Seg)
    (st : DrawState) :
    (emitAll cfg (l ++ [g]) st).pos = (jround cfg g.x1, jround cfg g.y1) := by
  rw [emitAll_append, emitAll_cons, emitAll_nil, pathEmit_pos]

theorem emitAll_lastEnd_concat (cfg : Config) (l : List Seg) (g : Seg)
    (st : DrawState) :
    lastEnd (emitAll cfg (l ++ [g]) st).cmds =
      some ((emitAll cfg (l ++ [g]) st).pos) := by
  rw [emitAll_append, emitAll_cons, emitAll_nil]
  exact pathEmit_lastEnd _ _ _ _ _ _ _ _

theorem emitAll_head (cfg : Config) (g : Seg) (rest : List Seg)
    (st : DrawState) (h : st.cmds = []) :
    (emitAll cfg (g :: rest) st).cmds.head? =
      some (.move (jround cfg g.x0) (jround cfg g.y0)) := by
  rw [emitAll_cons]
  obtain ⟨t, ht, _⟩ :=
    emitAll_extend cfg rest (pathEmit cfg g.x0 g.y0 g.cx g.cy g.x1 g.y1 st)
  rw [ht, pathEmit_head_of_empty cfg _ _ _ _ _ _ _ h]
  rfl

/-- Start point of a segment emission. -/
def segStart (g : Seg) : ℚ × ℚ := (g.x0, g.y0)

/-- End point of a segment emission. -/
def segEnd (g : Seg) : ℚ × ℚ := (g.x1, g.y1)

theorem lineEase_zero : lineEase 0 = 0 := by norm_num [lineEase]

theorem lineEase_one : lineEase 1 = -1 := by norm_num [lineEase]

theorem linePoint_zero (x0 x1 : ℚ) : linePoint x0 x1 0 = x0 := by
  rw [linePoint, lineEase_zero]
  ring

theorem linePoint_one (x0 x1 : ℚ) : linePoint x0 x1 1 = x1 := by
  rw [linePoint, lineEase_one]
  ring

theorem cLineEmit_length (rng : ℕ → ℚ) (k : ℕ) (x0 y0 x1 y1 f : ℚ) (n : ℕ) :
    (cLineEmit rng k x0 y0 x1 y1 f n).length = n := by
  simp [cLineEmit]

theorem cLineEmit_succ (rng : ℕ → ℚ) (k : ℕ) (x0 y0 x1 y1 f : ℚ) (m : ℕ) :
    ∃ l g, cLineEmit rng k x0 y0 x1 y1 f (m + 1) = l ++ [g] ∧
      segEnd g = (linePoint x0 x1 (((m : ℚ) + 1) / ((m : ℚ) + 1)),
        linePoint y0 y1 (((m : ℚ) + 1) / ((m : ℚ) + 1))) := by
  rw [cLineEmit, List.range_succ, List.map_append]
  refine ⟨_, _, rfl, ?_⟩
  simp [segEnd]

theorem cLineEmit_head_start (rng : ℕ → ℚ) (k : ℕ) (x0 y0 x1 y1 f : ℚ)
    (m : ℕ) :
    ∃ g rest, cLineEmit rng k x0 y0 x1 y1 f (m + 1) = g :: rest ∧
      segStart g = (x0, y0) := by
  rw [cLineEmit, List.range_succ_eq_map, List.map_cons]
  refine ⟨_, _, rfl, ?_⟩
  simp [segStart, linePoint_zero]

theorem lineSteps_of_fsteps_ne (cfg : Config) (d : ℚ) (hf : cfg.fsteps ≠ 0) :
    lineSteps cfg d = some (max (⌈d / cfg.fsteps⌉.toNat) cfg.msteps) := by
  rw [lineSteps, if_neg hf]

theorem lineSteps_getD_ne_zero (cfg : Config) (d : ℚ) (hf : cfg.fsteps ≠ 0)
    (hm : cfg.msteps ≠ 0) : (lineSteps cfg d).getD 0 ≠ 0 := by
  rw [lineSteps_of_fsteps_ne cfg d hf]
  simp
  omega

theorem cLine_eq (env : Env) (x0 y0 x1 y1 : ℚ) (st : DrawState) :
    cLine env x0 y0 x1 y1 st =
      emitAll env.cfg
        (cLineEmit env.rng st.k x0 y0 x1 y1
          (lineFuzz env.cfg
            ((lineSteps env.cfg (dist2 env x0 y0 x1 y1)).getD 0))
          ((lineSteps env.cfg (dist2 env x0 y0 x1 y1)).getD 0))
        ⟨st.cmds, st.pos,
          st.k + 2 * ((lineSteps env.cfg (dist2 env x0 y0 x1 y1)).getD 0)⟩ :=
  rfl

theorem cLine_pos (env : Env) (x0 y0 x1 y1 : ℚ) (st : DrawState)
    (hf : env.cfg.fsteps ≠ 0) (hm : env.cfg.msteps ≠ 0) :
    (cLine env x0 y0 x1 y1 st).pos =
      (jround env.cfg x1, jround env.cfg y1) := by
  obtain ⟨m, hm'⟩ := Nat.exists_eq_succ_of_ne_zero
    (lineSteps_getD_ne_zero env.cfg (dist2 env x0 y0 x1 y1) hf hm)
  rw [cLine_eq, hm']
  obtain ⟨l, g, hl, hg⟩ := cLineEmit_succ env.rng st.k x0 y0 x1 y1
    (lineFuzz env.cfg (m + 1)) m
  rw [hl, emitAll_pos_concat]
  have h1 : ((m : ℚ) + 1) / ((m : ℚ) + 1) = 1 := by
    rw [div_self]
    positivity
  rw [segEnd] at hg
  have hx : g.x1 = x1 := by
    have := congrArg Prod.fst hg
    simpa [h1, linePoint_one] using this
  have hy : g.y1 = y1 := by
    have := congrArg Prod.snd hg
    simpa [h1, linePoint_one] using this
  rw [hx, hy]

theorem cLine_extend (env : Env) (x0 y0 x1 y1 : ℚ) (st : DrawState) :
    ∃ t, (cLine env x0 y0 x1 y1 st).cmds = st.cmds ++ t ∧ NoClose t := by
  rw [cLine_eq]
  exact emitAll_extend _ _ _

theorem cLine_head (env : Env) (x0 y0 x1 y1 : ℚ) (st : DrawState)
    (h : st.cmds = []) (hf : env.cfg.fsteps ≠ 0) (hm : env.cfg.msteps ≠ 0) :
    (cLine env x0 y0 x1 y1 st).cmds.head? =
      some (.move (jround env.cfg x0) (jround env.cfg y0)) := by
  obtain ⟨m, hm'⟩ := Nat.exists_eq_succ_of_ne_zero
    (lineSteps_getD_ne_zero env.cfg (dist2 env x0 y0 x1 y1) hf hm)
  rw [cLine_eq, hm']
  obtain ⟨g, rest, hl, hg⟩ := cLineEmit_head_start env.rng st.k x0 y0 x1 y1
    (lineFuzz env.cfg (m + 1)) m
  rw [hl]
  have hx : g.x0 = x0 := congrArg Prod.fst hg
  have hy : g.y0 = y0 := congrArg Prod.snd hg
  rw [← hx, ← hy]
  exact emitAll_head _ _ _ _ h

theorem cLine_lastEnd (env : Env) (x0 y0 x1 y1 : ℚ) (st : DrawState)
    (hf : env.cfg.fsteps ≠ 0) (hm : env.cfg.msteps ≠ 0) :
    lastEnd (cLine env x0 y0 x1 y1 st).cmds =
      some ((cLine env x0 y0 x1 y1 st).pos) := by
  obtain ⟨m, hm'⟩ := Nat.exists_eq_succ_of_ne_zero
    (lineSteps_getD_ne_zero env.cfg (dist2 env x0 y0 x1 y1) hf hm)
  rw [cLine_eq, hm']
  obtain ⟨l, g, hl, _⟩ := cLineEmit_succ env.rng st.k x0 y0 x1 y1
    (lineFuzz env.cfg (m + 1)) m
  rw [hl]
  exact emitAll_lastEnd_concat _ _ _ _

theorem cLine_quadCount (env : Env) (x0 y0 x1 y1 : ℚ) (st : DrawState) :
    quadCount (cLine env x0 y0 x1 y1 st).cmds =
      quadCount st.cmds +
        (lineSteps env.cfg (dist2 env x0 y0 x1 y1)).getD 0 := by
  rw [cLine_eq, emitAll_quadCount, cLineEmit_length]

theorem cLine_cmds_ne_nil (env : Env) (x0 y0 x1 y1 : ℚ) (st : DrawState)
    (h : st.cmds ≠ []) : (cLine env x0 y0 x1 y1 st).cmds ≠ [] := by
  obtain ⟨t, ht, _⟩ := cLine_extend env x0 y0 x1 y1 st
  rw [ht]
  simp [h]

theorem head?_append_of_some {α : Type} {l t : List α} {a : α}
    (h : l.head? = some a) : (l ++ t).head? = some a := by
  cases l with
  | nil => simp at h
  | cons b rest => simpa using h

theorem firstMoveCoord_of_head {l : List PathCmd} {u v : ℚ}
    (h : l.head? = some (.move u v)) : firstMoveCoord l = some (u, v) := by
  cases l with
  | nil => simp at h
  | cons c rest =>
    simp at h
    rw [h]
    rfl

/-- Rounding to any precision is exact on integers. -/
theorem jround_int (cfg : Config) (z : ℤ) : jround cfg (z : ℚ) = (z : ℚ) := by
  have hp : ((10 : ℚ)) ^ cfg.precision ≠ 0 := by positivity
  rw [jround, add_comm, show ((z : ℚ) * 10 ^ cfg.precision) =
    (((z * 10 ^ cfg.precision : ℤ)) : ℚ) by push_cast; ring,
    Int.floor_add_int, show (⌊(1/2 : ℚ)⌋ : ℤ) = 0 by norm_num]
  push_cast
  rw [zero_add]
  field_simp

/-- C2: for every segment emission, the SVG path sink emits `M x0 y0` if and
only if the emission is the first of the build (empty descriptor) or the
rounded start differs from the pen position, and otherwise emits only the
`Q` continuation; after every emission the pen position is the rounded end
point, so a bare `Q` continues exactly from the rounded coordinate used as
the start of the emitted segment. -/
theorem c2_sink_contract (cfg : Config) (st : DrawState)
    (x0 y0 cx cy x1 y1 : ℚ) :
    (pathEmit cfg x0 y0 cx cy x1 y1 st).pos =
        (jround cfg x1, jround cfg y1) ∧
      (pathEmit cfg x0 y0 cx cy x1 y1 st).cmds =
        st.cmds ++
          (if st.cmds = [] ∨ st.pos ≠ (jround cfg x0, jround cfg y0) then
            [.move (jround cfg x0) (jround cfg y0),
             .quad (jround cfg cx) (jround cfg cy) (jround cfg x1)
               (jround cfg y1)]
          else
            [.quad (jround cfg cx) (jround cfg cy) (jround cfg x1)
              (jround cfg y1)]) := by
  refine ⟨pathEmit_pos _ _ _ _ _ _ _ _, ?_⟩
  rw [pathEmit_eq]
  have hAB : (st.pos.1 ≠ jround cfg x0 ∨ st.pos.2 ≠ jround cfg y0 ∨
      st.cmds = []) ↔
      (st.cmds = [] ∨ st.pos ≠ (jround cfg x0, jround cfg y0)) := by
    constructor
    · rintro (h | h | h)
      · exact Or.inr fun hc => h (by rw [hc])
      · exact Or.inr fun hc => h (by rw [hc])
      · exact Or.inl h
    · rintro (h | h)
      · exact Or.inr (Or.inr h)
      · by_cases h1 : st.pos.1 = jround cfg x0
        · by_cases h2 : st.pos.2 = jround cfg y0
          · exact absurd (Prod.ext_iff.mpr ⟨h1, h2⟩) h
          · exact Or.inr (Or.inl h2)
        · exact Or.inl h1
  by_cases hB : st.cmds = [] ∨ st.pos ≠ (jround cfg x0, jround cfg y0)
  · rw [if_pos (hAB.mpr hB), if_pos hB]
  · rw [if_neg (fun hA => hB (hAB.mp hA)), if_neg hB]

/-- C1 (amended: nonnegative width and height): for a rectangle with corner
radii 0, any corner and any nonnegative width and height, under the default
configuration and any oracle behaviour, the first `M` coordinate of the
produced descriptor equals the end point of the final emitted segment — the
four sides close back exactly onto the rounded `(x0, y0)`. -/
theorem c1_rect_closure (env : Env) (x0 y0 w h : ℚ)
    (hcfg : env.cfg = defaultConfig) (hw : 0 ≤ w) (hh : 0 ≤ h) :
    firstMoveCoord (cRect env x0 y0 w h 0 0 initState).cmds =
        some (jround env.cfg x0, jround env.cfg y0) ∧
      lastEnd (cRect env x0 y0 w h 0 0 initState).cmds =
        some (jround env.cfg x0, jround env.cfg y0) := by
  have hf : env.cfg.fsteps ≠ 0 := by
    rw [hcfg]
    norm_num [defaultConfig]
  have hms : env.cfg.msteps ≠ 0 := by
    rw [hcfg]
    norm_num [defaultConfig]
  have hrh : min (0 : ℚ) (w / 2) = 0 := min_eq_left (by positivity)
  have hrv : min (0 : ℚ) (h / 2) = 0 := min_eq_left (by positivity)
  have hlt : ¬(0 : ℚ) < 0 := lt_irrefl 0
  simp only [cRect, hrh, hrv, if_neg hlt, add_zero, sub_zero]
  set st1 := cLine env x0 y0 (x0 + w) y0 initState with hst1
  set st2 := cLine env (x0 + w) y0 (x0 + w) (y0 + h) st1 with hst2
  set st3 := cLine env (x0 + w) (y0 + h) x0 (y0 + h) st2 with hst3
  have hhead1 : st1.cmds.head? =
      some (.move (jround env.cfg x0) (jround env.cfg y0)) :=
    cLine_head env x0 y0 (x0 + w) y0 initState rfl hf hms
  have hne1 : st1.cmds ≠ [] := by
    intro hc
    rw [hc] at hhead1
    simp at hhead1
  obtain ⟨t2, ht2, _⟩ := cLine_extend env (x0 + w) y0 (x0 + w) (y0 + h) st1
  obtain ⟨t3, ht3, _⟩ := cLine_extend env (x0 + w) (y0 + h) x0 (y0 + h) st2
  obtain ⟨t4, ht4, _⟩ := cLine_extend env x0 (y0 + h) x0 y0 st3
  constructor
  · apply firstMoveCoord_of_head
    rw [ht4, ht3, ht2]
    rw [List.append_assoc, List.append_assoc]
    exact head?_append_of_some hhead1
  · rw [cLine_lastEnd env x0 (y0 + h) x0 y0 st3 hf hms]
    rw [cLine_pos env x0 (y0 + h) x0 y0 st3 hf hms]

/-- C1 counterexample: the claim as stated quantifies over arbitrary width
and height.  With a negative width (`cRect witEnv 0 0 (-2) 2 0 0`), the
sanitization `rh = min 0 (width/2)` makes the corner radius negative, the
first side starts at `x0 + rh = -1` while the last side still ends at
`x0 = 0`: the first `M` coordinate differs from the final end point and the
outline is not closed. -/
theorem c1_counterexample :
    firstMoveCoord (cRect witEnv 0 0 (-2) 2 0 0 initState).cmds =
        some (-1, 0) ∧
      lastEnd (cRect witEnv 0 0 (-2) 2 0 0 initState).cmds = some (0, 0) ∧
      ((-1 : ℚ), (0 : ℚ)) ≠ ((0 : ℚ), (0 : ℚ)) := by
  have hf : witEnv.cfg.fsteps ≠ 0 := by norm_num [witEnv, defaultConfig]
  have hms : witEnv.cfg.msteps ≠ 0 := by norm_num [witEnv, defaultConfig]
  have hj0 : jround witEnv.cfg 0 = 0 := by
    rw [show (0 : ℚ) = ((0 : ℤ) : ℚ) by norm_num, jround_int]
  have hj1 : jround witEnv.cfg (-1) = -1 := by
    rw [show (-1 : ℚ) = ((-1 : ℤ) : ℚ) by norm_num, jround_int]
  have hunfold : cRect witEnv 0 0 (-2) 2 0 0 initState =
      cLine witEnv 0 2 0 0
        (cLine witEnv (-1) 2 (-1) 2
          (cLine witEnv (-2) 0 (-2) 2
            (cLine witEnv (-1) 0 (-1) 0 initState))) := by
    simp only [cRect]
    norm_num
  rw [hunfold]
  set st1 := cLine witEnv (-1) 0 (-1) 0 initState with hst1
  set st2 := cLine witEnv (-2) 0 (-2) 2 st1 with hst2
  set st3 := cLine witEnv (-1) 2 (-1) 2 st2 with hst3
  have hhead1 : st1.cmds.head? =
      some (.move (jround witEnv.cfg (-1)) (jround witEnv.cfg 0)) :=
    cLine_head witEnv (-1) 0 (-1) 0 initState rfl hf hms
  obtain ⟨t2, ht2, _⟩ := cLine_extend witEnv (-2) 0 (-2) 2 st1
  obtain ⟨t3, ht3, _⟩ := cLine_extend witEnv (-1) 2 (-1) 2 st2
  obtain ⟨t4, ht4, _⟩ := cLine_extend witEnv 0 2 0 0 st3
  refine ⟨?_, ?_, by norm_num⟩
  · apply firstMoveCoord_of_head
    rw [ht4, ht3, ht2, List.append_assoc, List.append_assoc]
    rw [hj1, hj0] at hhead1
    exact head?_append_of_some hhead1
  · rw [cLine_lastEnd witEnv 0 2 0 0 st3 hf hms,
      cLine_pos witEnv 0 2 0 0 st3 hf hms, hj0]

/-- C1 witness: the amended theorem applied at the concrete rectangle
`(1, 2, 3, 4)` with the concrete oracle environment. -/
theorem c1_witness :
    firstMoveCoord (cRect witEnv 1 2 3 4 0 0 initState).cmds =
        some (jround witEnv.cfg 1, jround witEnv.cfg 2) ∧
      lastEnd (cRect witEnv 1 2 3 4 0 0 initState).cmds =
        some (jround witEnv.cfg 1, jround witEnv.cfg 2) :=
  c1_rect_closure witEnv 1 2 3 4 rfl (by norm_num) (by norm_num)

/-- The concrete square-root oracle is exact on squares of naturals. -/
theorem qsqrt_natCast (n : ℕ) : qsqrt ((n : ℚ) * (n : ℚ)) = n := by
  rw [qsqrt]
  rw [show (((n : ℚ)) * (n : ℚ)) = ((n * n : ℕ) : ℚ) by push_cast; ring]
  rw [Rat.num_natCast, Rat.den_natCast, Int.toNat_natCast, Nat.sqrt_eq,
    Nat.sqrt_one]
  norm_num

/-- C3: the number of quadratic segments a line emits is
`max(msteps, ceil(L/fsteps))` for a line whose `dist2` evaluates to `L`;
halving `fsteps` cannot decrease the count; and the concrete scenario
`Line(0,0,100,0)` under the default configuration emits exactly 4 segments
with fuzz factor `8 / 1.4`, starting at `(0,0)` and ending at `(100,0)`. -/
theorem c3_line_segment_count :
    (∀ (env : Env) (x0 y0 x1 y1 L : ℚ) (st : DrawState),
        0 < env.cfg.fsteps → 1 ≤ env.cfg.msteps → 0 ≤ L →
        dist2 env x0 y0 x1 y1 = L →
        quadCount (cLine env x0 y0 x1 y1 st).cmds =
          quadCount st.cmds +
            max env.cfg.msteps (⌈L / env.cfg.fsteps⌉.toNat)) ∧
    (∀ (cfg : Config) (L : ℚ) (n1 n2 : ℕ), 0 < cfg.fsteps → 0 ≤ L →
        (cfg.msteps : ℚ) ≤ L / cfg.fsteps →
        lineSteps cfg L = some n1 →
        lineSteps ⟨cfg.fsteps / 2, cfg.msteps, cfg.ff, cfg.ffc, cfg.precision⟩
          L = some n2 →
        n1 ≤ n2) ∧
    (lineSteps defaultConfig (dist2 witEnv 0 0 100 0) = some 4 ∧
     lineFuzz defaultConfig 4 = 8 / (14/10) ∧
     quadCount (cLine witEnv 0 0 100 0 initState).cmds = 4 ∧
     firstMoveCoord (cLine witEnv 0 0 100 0 initState).cmds = some (0, 0) ∧
     lastEnd (cLine witEnv 0 0 100 0 initState).cmds = some (100, 0)) := by
  have hd100 : dist2 witEnv 0 0 100 0 = 100 := by
    show qsqrt _ = 100
    rw [show ((100 : ℚ) - 0) * (100 - 0) + (0 - 0) * (0 - 0) =
      ((100 : ℕ) : ℚ) * ((100 : ℕ) : ℚ) by push_cast; ring]
    rw [qsqrt_natCast]
    norm_num
  have hsteps : lineSteps defaultConfig (100 : ℚ) = some 4 := by
    rw [lineSteps_of_fsteps_ne _ _ (by norm_num [defaultConfig])]
    norm_num [defaultConfig]
  refine ⟨?_, ?_, ?_, ?_, ?_, ?_, ?_⟩
  · intro env x0 y0 x1 y1 L st hf _ _ hd
    rw [cLine_quadCount, hd, lineSteps_of_fsteps_ne _ _ (ne_of_gt hf)]
    rw [Option.getD_some, Nat.max_comm]
  · intro cfg L n1 n2 hf hL _ h1 h2
    rw [lineSteps_of_fsteps_ne _ _ (ne_of_gt hf)] at h1
    rw [lineSteps_of_fsteps_ne] at h2
    · have hdiv : L / (cfg.fsteps / 2) = 2 * (L / cfg.fsteps) := by
        field_simp
        ring
      have h0 : 0 ≤ L / cfg.fsteps := div_nonneg hL (le_of_lt hf)
      have hle : L / cfg.fsteps ≤ L / (cfg.fsteps / 2) := by
        rw [hdiv]
        linarith
      have hceil := Int.ceil_le_ceil hle
      have htoNat := Int.toNat_le_toNat hceil
      have e1 := Option.some.inj h1
      have e2 := Option.some.inj h2
      rw [← e1, ← e2]
      exact max_le_max htoNat le_rfl
    · exact div_ne_zero (ne_of_gt hf) two_ne_zero
  · rw [hd100]
    exact hsteps
  · norm_num [lineFuzz, defaultConfig]
  · rw [cLine_quadCount]
    show quadCount initState.cmds + _ = 4
    rw [show dist2 witEnv 0 0 100 0 = 100 from hd100]
    rw [show lineSteps witEnv.cfg (100 : ℚ) = some 4 from hsteps]
    rfl
  · have hj0 : jround witEnv.cfg 0 = 0 := by
      rw [show (0 : ℚ) = ((0 : ℤ) : ℚ) by norm_num, jround_int]
    have hhead := cLine_head witEnv 0 0 100 0 initState rfl
      (by norm_num [witEnv, defaultConfig]) (by norm_num [witEnv, defaultConfig])
    rw [hj0] at hhead
    exact firstMoveCoord_of_head hhead
  · have hj0 : jround witEnv.cfg 0 = 0 := by
      rw [show (0 : ℚ) = ((0 : ℤ) : ℚ) by norm_num, jround_int]
    have hj100 : jround witEnv.cfg 100 = 100 := by
      rw [show (100 : ℚ) = ((100 : ℤ) : ℚ) by norm_num, jround_int]
    rw [cLine_lastEnd witEnv 0 0 100 0 initState
      (by norm_num [witEnv, defaultConfig]) (by norm_num [witEnv, defaultConfig])]
    rw [cLine_pos witEnv 0 0 100 0 initState
      (by norm_num [witEnv, defaultConfig]) (by norm_num [witEnv, defaultConfig])]
    rw [hj0, hj100]

/-- C9 (amended: positive `fsteps`): for every configuration with
`fsteps > 0`, the line and Bezier drawers compute finite step counts for
every distance value; with `fsteps = 0` and positive distance the step
bound of the source loop is `Infinity` and the loop does not terminate
(see the counterexample). -/
theorem c9_finite_steps :
    (∀ (cfg : Config) (d : ℚ), 0 < cfg.fsteps →
      (lineSteps cfg d).isSome = true) ∧
    (∀ (cfg : Config) (pow09 : ℚ → ℚ) (d : ℚ), 0 < cfg.fsteps →
      (bezSteps cfg pow09 d).isSome = true) := by
  constructor
  · intro cfg d hf
    rw [lineSteps_of_fsteps_ne _ _ (ne_of_gt hf)]
    rfl
  · intro cfg pow09 d hf
    rw [bezSteps, if_neg (ne_of_gt hf)]
    split <;> rfl

/-- C9 counterexample: with the degenerate (but accepted) configuration
`fsteps = 0` and a line of positive length, the step bound of the `cLine`
loop is infinite (`none` in the embedding; `Math.ceil (d / 0) = Infinity`
in the source): the drawer call does not terminate after finitely many
segments. -/
theorem c9_counterexample :
    lineSteps ⟨0, 4, 8, 2/5, 10⟩ (100 : ℚ) = none := by
  rw [lineSteps]
  norm_num

/-- C9 witness: finite step counts at the default configuration. -/
theorem c9_witness :
    (lineSteps defaultConfig 7).isSome = true ∧
      (bezSteps defaultConfig (fun _ => 1) 7).isSome = true :=
  ⟨c9_finite_steps.1 defaultConfig 7 (by norm_num [defaultConfig]),
   c9_finite_steps.2 defaultConfig (fun _ => 1) 7
     (by norm_num [defaultConfig])⟩

theorem emitAll_cmds_ne_nil (cfg : Config) (g : Seg) (rest : List Seg)
    (st : DrawState) : (emitAll cfg (g :: rest) st).cmds ≠ [] := by
  rw [emitAll_cons]
  obtain ⟨t2, ht2, _⟩ :=
    emitAll_extend cfg rest (pathEmit cfg g.x0 g.y0 g.cx g.cy g.x1 g.y1 st)
  obtain ⟨t1, ht1, hne1, _⟩ :=
    pathEmit_extend cfg g.x0 g.y0 g.cx g.cy g.x1 g.y1 st
  rw [ht2, ht1]
  simp [hne1]

/-- Consecutive segments of a line emission share their junction point. -/
theorem cLineEmit_chain (rng : ℕ → ℚ) (k : ℕ) (x0 y0 x1 y1 f : ℚ) (n : ℕ) :
    List.Chain' (fun a b => segEnd a = segStart b)
      (cLineEmit rng k x0 y0 x1 y1 f n) := by
  rw [cLineEmit, List.chain'_map]
  cases n with
  | zero => simp
  | succ m =>
    rw [List.chain'_range_succ]
    intro i _
    simp only [segEnd, segStart]
    rw [Prod.ext_iff]
    constructor
    all_goals
      show linePoint _ _ _ = linePoint _ _ _
      push_cast
      ring_nf

/-- Pushing a chained segment list whose first start matches the pen
position into a nonempty descriptor appends only `Q` continuations. -/
theorem emitAll_chain_quads (cfg : Config) (segs : List Seg) (st : DrawState)
    (hne : st.cmds ≠ [])
    (hchain : List.Chain' (fun a b => segEnd a = segStart b) segs)
    (hstart : ∀ g, segs.head? = some g →
      st.pos = (jround cfg g.x0, jround cfg g.y0)) :
    ∃ t, (emitAll cfg segs st).cmds = st.cmds ++ t ∧
      ∀ c ∈ t, isQuadB c = true := by
  induction segs generalizing st with
  | nil => exact ⟨[], by simp [emitAll_nil], by intro c hc; simp at hc⟩
  | cons g rest ih =>
    rw [emitAll_cons]
    have hmatch := pathEmit_of_match cfg g.x0 g.y0 g.cx g.cy g.x1 g.y1 st hne
      (hstart g rfl)
    have hpos := pathEmit_pos cfg g.x0 g.y0 g.cx g.cy g.x1 g.y1 st
    have hne' : (pathEmit cfg g.x0 g.y0 g.cx g.cy g.x1 g.y1 st).cmds ≠ [] := by
      rw [hmatch]
      simp
    have hchain' := (List.chain'_cons'.mp hchain).2
    have hrel := (List.chain'_cons'.mp hchain).1
    have hstart' : ∀ g', rest.head? = some g' →
        (pathEmit cfg g.x0 g.y0 g.cx g.cy g.x1 g.y1 st).pos =
          (jround cfg g'.x0, jround cfg g'.y0) := by
      intro g' hg'
      have := hrel g' hg'
      rw [hpos]
      have hx : g.x1 = g'.x0 := congrArg Prod.fst this
      have hy : g.y1 = g'.y0 := congrArg Prod.snd this
      rw [hx, hy]
    obtain ⟨t, ht, hq⟩ := ih _ hne' hchain' hstart'
    refine ⟨[.quad (jround cfg g.cx) (jround cfg g.cy) (jround cfg g.x1)
      (jround cfg g.y1)] ++ t, ?_, ?_⟩
    · rw [ht, hmatch]
      simp
    · intro c hc
      rcases List.mem_append.mp hc with h | h
      · fin_cases h
        rfl
      · exact hq c h

/-- C10: random perturbation is applied only to the control point of each
emitted line segment, never to its end points: the start/end points of the
emission list do not depend on the random source or the fuzz factor, every
emitted end point lies exactly on the eased interpolation between the two
input points, the first segment starts exactly at `(x0, y0)` (since
`ft 0 = 0`) and the last ends exactly at `(x1, y1)` (since `ft 1 = -1`);
consequently a second line starting at the first line's end point continues
with bare `Q` commands — chained lines stay exactly connected regardless of
fuzz. -/
theorem c10_fuzz_only_control :
    (∀ (rng rng' : ℕ → ℚ) (k k' : ℕ) (x0 y0 x1 y1 f f' : ℚ) (n : ℕ),
      (cLineEmit rng k x0 y0 x1 y1 f n).map segStart =
          (cLineEmit rng' k' x0 y0 x1 y1 f' n).map segStart ∧
        (cLineEmit rng k x0 y0 x1 y1 f n).map segEnd =
          (cLineEmit rng' k' x0 y0 x1 y1 f' n).map segEnd) ∧
    (∀ (rng : ℕ → ℚ) (k : ℕ) (x0 y0 x1 y1 f : ℚ) (n : ℕ) (g : Seg),
      g ∈ cLineEmit rng k x0 y0 x1 y1 f n →
      ∃ i : ℕ, i < n ∧
        segStart g = (linePoint x0 x1 ((i : ℚ) / (n : ℚ)),
          linePoint y0 y1 ((i : ℚ) / (n : ℚ))) ∧
        segEnd g = (linePoint x0 x1 (((i : ℚ) + 1) / (n : ℚ)),
          linePoint y0 y1 (((i : ℚ) + 1) / (n : ℚ)))) ∧
    (∀ (rng : ℕ → ℚ) (k : ℕ) (x0 y0 x1 y1 f : ℚ) (m : ℕ),
      ((cLineEmit rng k x0 y0 x1 y1 f (m + 1)).head?).map segStart =
        some (x0, y0)) ∧
    (∀ (rng : ℕ → ℚ) (k : ℕ) (x0 y0 x1 y1 f : ℚ) (m : ℕ),
      ((cLineEmit rng k x0 y0 x1 y1 f (m + 1)).getLast?).map segEnd =
        some (x1, y1)) ∧
    (∀ (env : Env) (x0 y0 x1 y1 x2 y2 : ℚ) (st : DrawState),
      env.cfg.fsteps ≠ 0 → env.cfg.msteps ≠ 0 →
      ∃ t, (cLine env x1 y1 x2 y2 (cLine env x0 y0 x1 y1 st)).cmds =
          (cLine env x0 y0 x1 y1 st).cmds ++ t ∧
        ∀ c ∈ t, isQuadB c = true) := by
  refine ⟨?_, ?_, ?_, ?_, ?_⟩
  · intro rng rng' k k' x0 y0 x1 y1 f f' n
    constructor <;> simp [cLineEmit, List.map_map, segStart, segEnd]
  · intro rng k x0 y0 x1 y1 f n g hg
    rw [cLineEmit, List.mem_map] at hg
    obtain ⟨i, hi, hgi⟩ := hg
    rw [List.mem_range] at hi
    exact ⟨i, hi, by rw [← hgi]; rfl, by rw [← hgi]; rfl⟩
  · intro rng k x0 y0 x1 y1 f m
    obtain ⟨g, rest, hl, hg⟩ := cLineEmit_head_start rng k x0 y0 x1 y1 f m
    rw [hl]
    simp [hg]
  · intro rng k x0 y0 x1 y1 f m
    obtain ⟨l, g, hl, hg⟩ := cLineEmit_succ rng k x0 y0 x1 y1 f m
    rw [hl, List.getLast?_concat]
    have h1 : ((m : ℚ) + 1) / ((m : ℚ) + 1) = 1 := by
      rw [div_self]
      positivity
    rw [h1, linePoint_one, linePoint_one] at hg
    simp [hg]
  · intro env x0 y0 x1 y1 x2 y2 st hf hm
    set st1 := cLine env x0 y0 x1 y1 st with hst1
    have hne1 : st1.cmds ≠ [] := by
      obtain ⟨m, hm'⟩ := Nat.exists_eq_succ_of_ne_zero
        (lineSteps_getD_ne_zero env.cfg (dist2 env x0 y0 x1 y1) hf hm)
      rw [hst1, cLine_eq, hm']
      obtain ⟨g, rest, hl, _⟩ := cLineEmit_head_start env.rng st.k x0 y0 x1 y1
        (lineFuzz env.cfg (m + 1)) m
      rw [hl]
      exact emitAll_cmds_ne_nil _ _ _ _
    have hpos1 : st1.pos = (jround env.cfg x1, jround env.cfg y1) :=
      cLine_pos env x0 y0 x1 y1 st hf hm
    rw [cLine_eq env x1 y1 x2 y2 st1]
    apply emitAll_chain_quads
    · exact hne1
    · exact cLineEmit_chain _ _ _ _ _ _ _ _
    · intro g hg
      rcases Nat.eq_zero_or_pos ((lineSteps env.cfg
          (dist2 env x1 y1 x2 y2)).getD 0) with h0 | h0
      · rw [h0] at hg
        simp [cLineEmit] at hg
      · obtain ⟨m, hm'⟩ :=
          Nat.exists_eq_succ_of_ne_zero (Nat.pos_iff_ne_zero.mp h0)
        rw [hm'] at hg
        obtain ⟨g', rest, hl, hg'⟩ := cLineEmit_head_start env.rng st1.k
          x1 y1 x2 y2 (lineFuzz env.cfg (m + 1)) m
        rw [hl] at hg
        simp only [List.head?_cons, Option.some.injEq] at hg
        rw [hg] at hg'
        have hx : g.x0 = x1 := congrArg Prod.fst hg'
        have hy : g.y0 = y1 := congrArg Prod.snd hg'
        rw [hx, hy]
        exact hpos1

/-- C10 witness: the chaining conjunct applied to two concrete chained
lines in the concrete oracle environment. -/
theorem c10_witness :
    ∃ t, (cLine witEnv 3 4 5 4 (cLine witEnv 0 0 3 4 initState)).cmds =
        (cLine witEnv 0 0 3 4 initState).cmds ++ t ∧
      ∀ c ∈ t, isQuadB c = true :=
  c10_fuzz_only_control.2.2.2.2 witEnv 0 0 3 4 5 4 initState
    (by norm_num [witEnv, defaultConfig]) (by norm_num [witEnv, defaultConfig])

/-- C4: De Casteljau subdivision is lossless.  For two-dimensional control
points `P0..Pn` with `n = 1, 2, 3` (the degrees the drawers use) and any
split parameter `t`, evaluating the first control sequence returned by
`bsplit` at `s` equals evaluating the original curve at `t*s`, and
evaluating the second at `s` equals evaluating the original at
`t + (1-t)*s` — for all rational `t` and `s`, in particular for `t` in
`(0,1)` and `s` in `[0,1]`. -/
theorem c4_bsplit_lossless :
    (∀ t s a0 a1 b0 b1 : ℚ,
      bezEval ((bsplit [[a0, a1], [b0, b1]] t).1) s =
          bezEval [[a0, a1], [b0, b1]] (t * s) ∧
        bezEval ((bsplit [[a0, a1], [b0, b1]] t).2) s =
          bezEval [[a0, a1], [b0, b1]] (t + (1 - t) * s)) ∧
    (∀ t s a0 a1 b0 b1 c0 c1 : ℚ,
      bezEval ((bsplit [[a0, a1], [b0, b1], [c0, c1]] t).1) s =
          bezEval [[a0, a1], [b0, b1], [c0, c1]] (t * s) ∧
        bezEval ((bsplit [[a0, a1], [b0, b1], [c0, c1]] t).2) s =
          bezEval [[a0, a1], [b0, b1], [c0, c1]] (t + (1 - t) * s)) ∧
    (∀ t s a0 a1 b0 b1 c0 c1 d0 d1 : ℚ,
      bezEval ((bsplit [[a0, a1], [b0, b1], [c0, c1], [d0, d1]] t).1) s =
          bezEval [[a0, a1], [b0, b1], [c0, c1], [d0, d1]] (t * s) ∧
        bezEval ((bsplit [[a0, a1], [b0, b1], [c0, c1], [d0, d1]] t).2) s =
          bezEval [[a0, a1], [b0, b1], [c0, c1], [d0, d1]]
            (t + (1 - t) * s)) := by
  refine ⟨fun t s a0 a1 b0 b1 => ?_, fun t s a0 a1 b0 b1 c0 c1 => ?_,
    fun t s a0 a1 b0 b1 c0 c1 d0 d1 => ?_⟩
  all_goals
    constructor <;>
      (simp [bsplit, bcoef, bezEval, bezEvalAux, dcReduce, pf, pp,
        List.range_succ]
       constructor <;> ring)

/-- State `st'` extends state `st` by appending only `M`/`Q` commands. -/
def NCExt (st st' : DrawState) : Prop :=
  ∃ t, st'.cmds = st.cmds ++ t ∧ NoClose t

theorem NCExt_refl (st : DrawState) : NCExt st st :=
  ⟨[], by simp, by intro c hc; simp at hc⟩

theorem NCExt_same_cmds {st st' : DrawState} (h : st'.cmds = st.cmds) :
    NCExt st st' :=
  ⟨[], by simp [h], by intro c hc; simp at hc⟩

theorem NCExt_trans {a b c : DrawState} (h1 : NCExt a b) (h2 : NCExt b c) :
    NCExt a c := by
  obtain ⟨t1, e1, n1⟩ := h1
  obtain ⟨t2, e2, n2⟩ := h2
  refine ⟨t1 ++ t2, by rw [e2, e1]; simp, ?_⟩
  intro g hg
  rcases List.mem_append.mp hg with hh | hh
  · exact n1 g hh
  · exact n2 g hh

theorem NCExt_pathEmit (cfg : Config) (a b c d e f : ℚ) (st : DrawState) :
    NCExt st (pathEmit cfg a b c d e f st) := by
  obtain ⟨t, ht, _, hnc⟩ := pathEmit_extend cfg a b c d e f st
  exact ⟨t, ht, hnc⟩

theorem NCExt_cLine (env : Env) (x0 y0 x1 y1 : ℚ) (st : DrawState) :
    NCExt st (cLine env x0 y0 x1 y1 st) :=
  cLine_extend env x0 y0 x1 y1 st

theorem NCExt_cBez2Loop (env : Env) (f : ℚ) :
    ∀ (n : ℕ) (curve : List (List ℚ)) (st : DrawState),
      NCExt st (cBez2Loop env f n curve st) := by
  intro n
  induction n with
  | zero => intro curve st; exact NCExt_refl st
  | succ i ih =>
    intro curve st
    rw [cBez2Loop]
    apply NCExt_trans _ (ih _ _)
    apply NCExt_trans _ (NCExt_pathEmit _ _ _ _ _ _ _ _)
    exact NCExt_same_cmds rfl

theorem NCExt_cBezier2 (env : Env) (x0 y0 cx cy x1 y1 : ℚ) (st : DrawState) :
    NCExt st (cBezier2 env x0 y0 cx cy x1 y1 st) := by
  rw [cBezier2]
  exact NCExt_cBez2Loop _ _ _ _ _

theorem NCExt_cBez3Loop (env : Env) (f : ℚ) :
    ∀ (n : ℕ) (curve : List (List ℚ)) (st : DrawState),
      NCExt st (cBez3Loop env f n curve st) := by
  intro n
  induction n with
  | zero => intro curve st; exact NCExt_refl st
  | succ i ih =>
    intro curve st
    rw [cBez3Loop]
    apply NCExt_trans _ (ih _ _)
    apply NCExt_trans _ (NCExt_pathEmit _ _ _ _ _ _ _ _)
    exact NCExt_same_cmds rfl

theorem NCExt_cBezier3 (env : Env) (x0 y0 cx0 cy0 cx1 cy1 x1 y1 : ℚ)
    (st : DrawState) :
    NCExt st (cBezier3 env x0 y0 cx0 cy0 cx1 cy1 x1 y1 st) := by
  rw [cBezier3]
  exact NCExt_cBez3Loop _ _ _ _ _

theorem NCExt_cEllipseLoop (env : Env)
    (x y rxs rys cosRot sinRot fh fv segLength : ℚ) :
    ∀ (n : ℕ) (t1 x1 y1 : ℚ) (st : DrawState),
      NCExt st (cEllipseLoop env x y rxs rys cosRot sinRot fh fv segLength
        n t1 x1 y1 st).2.2.2 := by
  intro n
  induction n with
  | zero => intro t1 x1 y1 st; exact NCExt_refl st
  | succ r ih =>
    intro t1 x1 y1 st
    rw [cEllipseLoop]
    apply NCExt_trans _ (ih _ _ _ _)
    apply NCExt_trans _ (NCExt_pathEmit _ _ _ _ _ _ _ _)
    exact NCExt_same_cmds rfl

theorem NCExt_cEllipse (env : Env) (x y rh rv rot0 start0 end0 : ℚ)
    (st : DrawState) : NCExt st (cEllipse env x y rh rv rot0 start0 end0 st) := by
  rw [cEllipse]
  apply NCExt_trans _ (NCExt_cLine _ _ _ _ _ _)
  apply NCExt_trans _ (NCExt_cEllipseLoop _ _ _ _ _ _ _ _ _ _ _ _ _ _ _)
  apply NCExt_trans _ (NCExt_cLine _ _ _ _ _ _)
  exact NCExt_same_cmds rfl

theorem NCExt_cCircleLoop (env : Env) (x y rxs rys f segLength : ℚ) :
    ∀ (n : ℕ) (t1 x1 y1 : ℚ) (st : DrawState),
      NCExt st (cCircleLoop env x y rxs rys f segLength
        n t1 x1 y1 st).2.2.2 := by
  intro n
  induction n with
  | zero => intro t1 x1 y1 st; exact NCExt_refl st
  | succ r ih =>
    intro t1 x1 y1 st
    rw [cCircleLoop]
    apply NCExt_trans _ (ih _ _ _ _)
    apply NCExt_trans _ (NCExt_pathEmit _ _ _ _ _ _ _ _)
    exact NCExt_same_cmds rfl

theorem NCExt_cCircle (env : Env) (x y r start0 end0 : ℚ) (st : DrawState) :
    NCExt st (cCircle env x y r start0 end0 st) := by
  rw [cCircle]
  apply NCExt_trans _ (NCExt_cLine _ _ _ _ _ _)
  apply NCExt_trans _ (NCExt_cCircleLoop _ _ _ _ _ _ _ _ _ _ _ _)
  apply NCExt_trans _ (NCExt_cLine _ _ _ _ _ _)
  exact NCExt_same_cmds rfl

theorem NCExt_ite_cEllipse (c : Prop) [Decidable c] (env : Env)
    (a b r1 r2 r3 s1 s2 : ℚ) {st st' : DrawState} (hh : NCExt st st') :
    NCExt st (if c then cEllipse env a b r1 r2 r3 s1 s2 st' else st') := by
  split
  · exact NCExt_trans hh (NCExt_cEllipse _ _ _ _ _ _ _ _ _)
  · exact hh

theorem NCExt_cRect (env : Env) (x0 y0 w h rh0 rv0 : ℚ) (st : DrawState) :
    NCExt st (cRect env x0 y0 w h rh0 rv0 st) := by
  rw [cRect]
  apply NCExt_ite_cEllipse
  apply NCExt_trans _ (NCExt_cLine _ _ _ _ _ _)
  apply NCExt_ite_cEllipse
  apply NCExt_trans _ (NCExt_cLine _ _ _ _ _ _)
  apply NCExt_ite_cEllipse
  apply NCExt_trans _ (NCExt_cLine _ _ _ _ _ _)
  apply NCExt_ite_cEllipse
  exact NCExt_cLine _ _ _ _ _ _

theorem NCExt_cTrian (env : Env) (x0 y0 x1 y1 x2 y2 : ℚ) (st : DrawState) :
    NCExt st (cTrian env x0 y0 x1 y1 x2 y2 st) := by
  rw [cTrian]
  apply NCExt_trans _ (NCExt_cLine _ _ _ _ _ _)
  apply NCExt_trans _ (NCExt_cLine _ _ _ _ _ _)
  exact NCExt_cLine _ _ _ _ _ _

theorem NCExt_arcStep (env : Env) (pos org : ℚ × ℚ)
    (rx0 ry0 rot faN fsN ex ey : ℚ) (st : DrawState) :
    NCExt st (arcStep env pos org rx0 ry0 rot faN fsN ex ey st).2 := by
  rw [arcStep]
  split
  · exact NCExt_refl st
  · split
    · exact NCExt_refl st
    · split
      · exact NCExt_cLine _ _ _ _ _ _
      · exact NCExt_cEllipse _ _ _ _ _ _ _ _ _

theorem NCExt_implicitLines (env : Env) (upper : Bool) :
    ∀ (org : ℚ × ℚ) (args : List ℚ) (s : RePathSt),
      NCExt s.dst (implicitLines env upper org args s).dst := by
  intro org args s
  induction org, args, s using implicitLines.induct env upper with
  | case1 org s => rw [implicitLines]; exact NCExt_refl _
  | case2 org a s => rw [implicitLines]; exact NCExt_refl _
  | case3 org ax ay rest s p dst ih =>
    rw [implicitLines]
    exact NCExt_trans (NCExt_cLine _ _ _ _ _ _) ih

theorem NCExt_lineLoop (env : Env) (upper : Bool) :
    ∀ (args : List ℚ) (s : RePathSt),
      NCExt s.dst (lineLoop env upper args s).dst := by
  intro args s
  induction args, s using lineLoop.induct env upper
  all_goals first
    | (rw [lineLoop]; exact NCExt_refl _)
    | (rw [lineLoop]
       exact NCExt_trans (NCExt_cLine _ _ _ _ _ _) (by assumption))

theorem NCExt_hLoop (env : Env) (upper : Bool) :
    ∀ (args : List ℚ) (s : RePathSt),
      NCExt s.dst (hLoop env upper args s).dst := by
  intro args s
  induction args, s using hLoop.induct env upper
  all_goals first
    | (rw [hLoop]; exact NCExt_refl _)
    | (rw [hLoop]
       exact NCExt_trans (NCExt_cLine _ _ _ _ _ _) (by assumption))

theorem NCExt_vLoop (env : Env) (upper : Bool) :
    ∀ (args : List ℚ) (s : RePathSt),
      NCExt s.dst (vLoop env upper args s).dst := by
  intro args s
  induction args, s using vLoop.induct env upper
  all_goals first
    | (rw [vLoop]; exact NCExt_refl _)
    | (rw [vLoop]
       exact NCExt_trans (NCExt_cLine _ _ _ _ _ _) (by assumption))

theorem NCExt_quadLoop (env : Env) (upper : Bool) :
    ∀ (args : List ℚ) (s : RePathSt),
      NCExt s.dst (quadLoop env upper args s).dst := by
  intro args s
  induction args, s using quadLoop.induct env upper
  all_goals first
    | (rw [quadLoop]; exact NCExt_refl _)
    | (rw [quadLoop]
       exact NCExt_trans (NCExt_cBezier2 _ _ _ _ _ _ _ _) (by assumption))

theorem NCExt_tLoop (env : Env) (upper : Bool) :
    ∀ (args : List ℚ) (s : RePathSt),
      NCExt s.dst (tLoop env upper args s).dst := by
  intro args s
  induction args, s using tLoop.induct env upper
  all_goals first
    | (rw [tLoop]; exact NCExt_refl _)
    | (rw [tLoop]
       exact NCExt_trans (NCExt_cBezier2 _ _ _ _ _ _ _ _) (by assumption))

theorem NCExt_cubicLoop (env : Env) (upper : Bool) :
    ∀ (args : List ℚ) (s : RePathSt),
      NCExt s.dst (cubicLoop env upper args s).dst := by
  intro args s
  induction args, s using cubicLoop.induct env upper
  all_goals first
    | (rw [cubicLoop]; exact NCExt_refl _)
    | (rw [cubicLoop]
       exact NCExt_trans (NCExt_cBezier3 _ _ _ _ _ _ _ _ _ _) (by assumption))

theorem NCExt_sLoop (env : Env) (upper : Bool) :
    ∀ (args : List ℚ) (s : RePathSt),
      NCExt s.dst (sLoop env upper args s).dst := by
  intro args s
  induction args, s using sLoop.induct env upper
  all_goals first
    | (rw [sLoop]; exact NCExt_refl _)
    | (rw [sLoop]
       exact NCExt_trans (NCExt_cBezier3 _ _ _ _ _ _ _ _ _ _) (by assumption))

theorem NCExt_arcLoop (env : Env) (upper : Bool) :
    ∀ (args : List ℚ) (s : RePathSt),
      NCExt s.dst (arcLoop env upper args s).dst := by
  intro args s
  induction args, s using arcLoop.induct env upper
  all_goals first
    | (rw [arcLoop]; exact NCExt_refl _)
    | (rw [arcLoop]
       exact NCExt_trans (NCExt_arcStep _ _ _ _ _ _ _ _ _ _ _)
         (by assumption))

theorem NCExt_or {st st' : DrawState} (h : NCExt st st') (P : Prop) :
    ∃ t, st'.cmds = st.cmds ++ t ∧ (NoClose t ∨ P) := by
  obtain ⟨t, ht, hn⟩ := h
  exact ⟨t, ht, Or.inl hn⟩

theorem NCExt_mCase (env : Env) (moveMadeAbs : Bool) (name : String) :
    ∀ (args : List ℚ) (s : RePathSt),
      NCExt s.dst (mCase env moveMadeAbs name args s).dst := by
  intro args s
  rcases args with _ | ⟨ax, _ | ⟨ay, rest⟩⟩
  · rw [mCase]
    exact NCExt_refl _
  · rw [mCase]
    exact NCExt_refl _
  · rw [mCase]
    exact NCExt_implicitLines _ _ _ _ _

theorem reCmdCore_extend (env : Env) (moveMadeAbs : Bool) (name : String)
    (args : List ℚ) (s : RePathSt) :
    ∃ t, (reCmdCore env moveMadeAbs name args s).dst.cmds =
        s.dst.cmds ++ t ∧
      (NoClose t ∨ name = "Z" ∨ name = "z") := by
  rw [reCmdCore]
  by_cases h1 : name = "M" ∨ name = "m"
  · rw [if_pos h1]
    exact NCExt_or (NCExt_mCase _ _ _ _ _) _
  rw [if_neg h1]
  by_cases h2 : name = "Q" ∨ name = "q"
  · rw [if_pos h2]
    exact NCExt_or (NCExt_quadLoop _ _ _ _) _
  rw [if_neg h2]
  by_cases h3 : name = "T" ∨ name = "t"
  · rw [if_pos h3]
    exact NCExt_or (NCExt_tLoop _ _ _ _) _
  rw [if_neg h3]
  by_cases h4 : name = "C" ∨ name = "c"
  · rw [if_pos h4]
    exact NCExt_or (NCExt_cubicLoop _ _ _ _) _
  rw [if_neg h4]
  by_cases h5 : name = "S" ∨ name = "s"
  · rw [if_pos h5]
    exact NCExt_or (NCExt_sLoop _ _ _ _) _
  rw [if_neg h5]
  by_cases h6 : name = "A" ∨ name = "a"
  · rw [if_pos h6]
    exact NCExt_or (NCExt_arcLoop _ _ _ _) _
  rw [if_neg h6]
  by_cases h7 : name = "L" ∨ name = "l"
  · rw [if_pos h7]
    exact NCExt_or (NCExt_lineLoop _ _ _ _) _
  rw [if_neg h7]
  by_cases h8 : name = "H" ∨ name = "h"
  · rw [if_pos h8]
    exact NCExt_or (NCExt_hLoop _ _ _ _) _
  rw [if_neg h8]
  by_cases h9 : name = "V" ∨ name = "v"
  · rw [if_pos h9]
    exact NCExt_or (NCExt_vLoop _ _ _ _) _
  rw [if_neg h9]
  by_cases h10 : name = "Z" ∨ name = "z"
  · rw [if_pos h10]
    obtain ⟨t', ht', _⟩ :=
      cLine_extend env s.pos.1 s.pos.2 s.ipos.1 s.ipos.2 s.dst
    refine ⟨t' ++ [.close], ?_, Or.inr h10⟩
    show (cLine env s.pos.1 s.pos.2 s.ipos.1 s.ipos.2
        s.dst).cmds ++ [PathCmd.close] =
        s.dst.cmds ++ (t' ++ [PathCmd.close])
    rw [ht', List.append_assoc]
  rw [if_neg h10]
  exact ⟨[], (List.append_nil s.dst.cmds).symm,
    Or.inl (fun g hg => absurd hg (List.not_mem_nil g))⟩

theorem reCmd_extend (env : Env) (first : Bool) (c : SCmd) (s : RePathSt) :
    ∃ t, (reCmd env first c s).dst.cmds = s.dst.cmds ++ t ∧
      (NoClose t ∨ c.name = "Z" ∨ c.name = "z") := by
  obtain ⟨t, ht, hd⟩ := reCmdCore_extend env (first && (c.name == "m"))
    (if (first && (c.name == "m") : Bool) then "M" else c.name) c.args s
  refine ⟨t, ht, ?_⟩
  rcases hd with h | h
  · exact Or.inl h
  · rcases Bool.eq_false_or_eq_true (first && (c.name == "m")) with hb | hb
    · rw [hb] at h
      simp at h
    · rw [hb] at h
      simp only [Bool.false_eq_true, if_false] at h
      exact Or.inr h

theorem rePathGo_extend (env : Env) :
    ∀ (cmds : List SCmd) (first : Bool) (s : RePathSt),
      (∀ c ∈ cmds, c.name ≠ "Z" ∧ c.name ≠ "z") →
      NCExt s.dst (rePathGo env cmds first s).dst := by
  intro cmds
  induction cmds with
  | nil =>
    intro first s _
    rw [rePathGo]
    exact NCExt_refl _
  | cons c rest ih =>
    intro first s hall
    rw [rePathGo]
    have hc := hall c (by simp)
    obtain ⟨t, ht, hd⟩ := reCmd_extend env first c s
    have hnc : NoClose t := by
      rcases hd with h | h | h
      · exact h
      · exact absurd h hc.1
      · exact absurd h hc.2
    exact NCExt_trans ⟨t, ht, hnc⟩
      (ih false _ (fun g hg => hall g (by simp [hg])))

theorem unWrap_of_not_discoverable (e : Elem) (h : ¬ Discoverable e) :
    unWrap e = .error
      (if (unNode (unCD e)).parentE.isSome then JsErr.typeError
       else JsErr.unrecognized) := by
  rw [Discoverable] at h
  rw [discoverableB] at h
  simp only [Bool.or_eq_true, not_or] at h
  obtain ⟨⟨hself, hchild⟩, _⟩ := h
  rw [unWrap]
  rw [if_neg (by simp [hself])]
  have hfind : (unNode (unCD e)).children.find?
      (fun c => checkTag (unNode c)) = none := by
    rw [List.find?_eq_none]
    intro x hx hcx
    rw [List.any_eq_true] at hchild
    push_neg at hchild
    exact hchild x hx hcx
  rw [hfind]
  rcases hp : (unNode (unCD e)).parentE with _ | p
  · simp [hp]
  · simp [hp]

/-- C7 (amended: the raised error is the `UnrecognizedInputError` message
only when the element carries no `parent` property; with a `parent` property
present and no child matched, the parent branch re-reads `children[i]` out
of bounds and a `TypeError` is raised instead): for every nonempty input
list in which no element is discoverable by the recognition procedure, the
reinterpretation performs no replacement at all and aborts with an error;
the error of each `unWrap` call is the error message exactly when the
normalized element has no `parent` property. -/
theorem c7_unrecognized_input :
    (∀ (e : Elem), ¬ Discoverable e →
      unWrap e = .error
        (if (unNode (unCD e)).parentE.isSome then JsErr.typeError
         else JsErr.unrecognized)) ∧
    (∀ (walk : Elem → Elem) (e : Elem) (rest : List Elem),
      (∀ x ∈ e :: rest, ¬ Discoverable x) →
      (magic walk (e :: rest)).1 = [] ∧
        ∃ err, (magic walk (e :: rest)).2 = some err) := by
  refine ⟨unWrap_of_not_discoverable, ?_⟩
  intro walk e rest hall
  have he := unWrap_of_not_discoverable e (hall e (by simp))
  cases rest with
  | nil =>
    have hm : magic walk [e] = ([],
        some (if (unNode (unCD e)).parentE.isSome then JsErr.typeError
          else JsErr.unrecognized)) := by
      simp only [magic, magicTail, he]
    rw [hm]
    exact ⟨rfl, _, rfl⟩
  | cons r rest' =>
    have hr := unWrap_of_not_discoverable r (hall r (by simp))
    have hm : magic walk (e :: r :: rest') = ([],
        some (if (unNode (unCD r)).parentE.isSome then JsErr.typeError
          else JsErr.unrecognized)) := by
      simp only [magic, magicTail, hr]
    rw [hm]
    exact ⟨rfl, _, rfl⟩

/-- C7 counterexample: an element with no tag, no children and a `parent`
property is not discoverable, and `C.magic` on it aborts with a `TypeError`
(from the out-of-bounds `children[i]` re-read of the parent branch), not
with the `UnrecognizedInputError` message that the claim asserts; no
replacement is performed. -/
theorem c7_counterexample :
    ¬ Discoverable (Elem.mk none [] none none
        (some (Elem.mk none [] none none none))) ∧
      magic (fun x => x) [Elem.mk none [] none none
        (some (Elem.mk none [] none none none))] =
        ([], some JsErr.typeError) ∧
      JsErr.typeError ≠ JsErr.unrecognized := by
  refine ⟨?_, ?_, by intro h; cases h⟩
  · intro h
    rw [Discoverable, discoverableB] at h
    simp [unCD, unNode, checkTag, Elem.cd, Elem.node, Elem.tag,
      Elem.children, Elem.parentE] at h
  · simp [magic, magicTail, unWrap, unCD, unNode, checkTag, Elem.cd,
      Elem.node, Elem.tag, Elem.children, Elem.parentE]

/-- C7 witness: the amended theorem applied to a single undiscoverable
element without a parent property. -/
theorem c7_witness :
    (magic (fun x => x) [Elem.mk none [] none none none]).1 = [] ∧
      ∃ err, (magic (fun x => x) [Elem.mk none [] none none none]).2 =
        some err :=
  c7_unrecognized_input.2 (fun x => x) (Elem.mk none [] none none none) []
    (by
      intro x hx
      fin_cases hx
      intro h
      rw [Discoverable, discoverableB] at h
      simp [unCD, unNode, checkTag, Elem.cd, Elem.node, Elem.tag,
        Elem.children, Elem.parentE] at h)

/-- C8 (amended: the close-path case of the reinterpreter additionally
appends the explicit close marker `z`): every descriptor produced by the
shape drawers extends the incoming descriptor with `M x y` and `Q cx cy x y`
token groups only — no arc, cubic, or relative commands exist in the
emission vocabulary of the sink, and no close marker is ever appended by a
drawer; the reinterpreter likewise appends only `M`/`Q` groups whenever the
command list contains no `Z`/`z` command. -/
theorem c8_descriptor_tokens :
    (∀ (env : Env) (x0 y0 x1 y1 : ℚ) (st : DrawState),
      NCExt st (cLine env x0 y0 x1 y1 st)) ∧
    (∀ (env : Env) (x0 y0 cx cy x1 y1 : ℚ) (st : DrawState),
      NCExt st (cBezier2 env x0 y0 cx cy x1 y1 st)) ∧
    (∀ (env : Env) (x0 y0 cx0 cy0 cx1 cy1 x1 y1 : ℚ) (st : DrawState),
      NCExt st (cBezier3 env x0 y0 cx0 cy0 cx1 cy1 x1 y1 st)) ∧
    (∀ (env : Env) (x y rh rv rot0 start0 end0 : ℚ) (st : DrawState),
      NCExt st (cEllipse env x y rh rv rot0 start0 end0 st)) ∧
    (∀ (env : Env) (x y r start0 end0 : ℚ) (st : DrawState),
      NCExt st (cCircle env x y r start0 end0 st)) ∧
    (∀ (env : Env) (x0 y0 w h rh0 rv0 : ℚ) (st : DrawState),
      NCExt st (cRect env x0 y0 w h rh0 rv0 st)) ∧
    (∀ (env : Env) (x0 y0 x1 y1 x2 y2 : ℚ) (st : DrawState),
      NCExt st (cTrian env x0 y0 x1 y1 x2 y2 st)) ∧
    (∀ (env : Env) (cmds : List SCmd) (st : DrawState),
      (∀ c ∈ cmds, c.name ≠ "Z" ∧ c.name ≠ "z") →
      NCExt st (rePath env cmds st)) := by
  refine ⟨NCExt_cLine, NCExt_cBezier2, NCExt_cBezier3, NCExt_cEllipse,
    NCExt_cCircle, NCExt_cRect, NCExt_cTrian, ?_⟩
  intro env cmds st hall
  rw [rePath]
  exact rePathGo_extend env cmds true ⟨(0, 0), (0, 0), none, none, st⟩ hall

/-- C8 counterexample: reinterpreting the path `M 0 0 Z` appends the close
marker `z` to the descriptor, so the descriptor is not composed solely of
`M` and `Q` token groups. -/
theorem c8_counterexample :
    PathCmd.close ∈ (rePath witEnv [⟨"M", [0, 0]⟩, ⟨"Z", []⟩] initState).cmds := by
  rw [rePath, rePathGo, rePathGo, rePathGo]
  have h1 : reCmd witEnv true ⟨"M", [0, 0]⟩ ⟨(0, 0), (0, 0), none, none,
      initState⟩ = ⟨(0, 0), (0, 0), none, none, initState⟩ := by
    simp [reCmd, reCmdCore, mCase, implicitLines]
  rw [h1]
  simp [reCmd, reCmdCore]

/-- C8 witness: the reinterpreter conjunct applied to a concrete `Z`-free
command list. -/
theorem c8_witness :
    NCExt initState (rePath witEnv [⟨"L", [10, 0]⟩] initState) :=
  c8_descriptor_tokens.2.2.2.2.2.2.2 witEnv [⟨"L", [10, 0]⟩] initState
    (by intro c hc; fin_cases hc; constructor <;> simp)

/-- C6 (amended: the single-radius-zero degradation draws a horizontal or
vertical line to the modified end point, not to the arc's end point): for
every elliptic-arc command processed by `rePath`, if the absolute end point
equals the current position the command is skipped with no emission and no
state change; if both radii are zero it is skipped entirely; if exactly one
radius is zero a single straight line is drawn — horizontal to
`(end.x, pos.y)` when `ry = 0`, vertical to `(pos.x, end.y)` when `rx = 0`;
otherwise the arc is converted by `getEllipse` and the ellipse drawer is
called with the resulting center and angles.  `arcStep` is a total
function: no degenerate case raises an error. -/
theorem c6_arc_dispatch (env : Env) (pos org : ℚ × ℚ)
    (rx0 ry0 rot faN fsN ex ey : ℚ) (st : DrawState) :
    ((org.1 + ex = pos.1 ∧ org.2 + ey = pos.2) →
      arcStep env pos org rx0 ry0 rot faN fsN ex ey st = (pos, st)) ∧
    (¬(org.1 + ex = pos.1 ∧ org.2 + ey = pos.2) → |rx0| = 0 → |ry0| = 0 →
      arcStep env pos org rx0 ry0 rot faN fsN ex ey st = (pos, st)) ∧
    (¬(org.1 + ex = pos.1 ∧ org.2 + ey = pos.2) → |ry0| = 0 → |rx0| ≠ 0 →
      arcStep env pos org rx0 ry0 rot faN fsN ex ey st =
        ((org.1 + ex, pos.2),
          cLine env pos.1 pos.2 (org.1 + ex) pos.2 st)) ∧
    (¬(org.1 + ex = pos.1 ∧ org.2 + ey = pos.2) → |rx0| = 0 → |ry0| ≠ 0 →
      arcStep env pos org rx0 ry0 rot faN fsN ex ey st =
        ((pos.1, org.2 + ey),
          cLine env pos.1 pos.2 pos.1 (org.2 + ey) st)) ∧
    (¬(org.1 + ex = pos.1 ∧ org.2 + ey = pos.2) → |rx0| ≠ 0 → |ry0| ≠ 0 →
      arcStep env pos org rx0 ry0 rot faN fsN ex ey st =
        ((org.1 + ex, org.2 + ey),
          cEllipse env
            (getEllipseQ env pos (org.1 + ex, org.2 + ey) |rx0| |ry0|
              (jmodQ rot 360) (if faN = 0 then false else true)
              (if fsN = 0 then false else true)).1.1
            (getEllipseQ env pos (org.1 + ex, org.2 + ey) |rx0| |ry0|
              (jmodQ rot 360) (if faN = 0 then false else true)
              (if fsN = 0 then false else true)).1.2
            |rx0| |ry0| (jmodQ rot 360)
            (getEllipseQ env pos (org.1 + ex, org.2 + ey) |rx0| |ry0|
              (jmodQ rot 360) (if faN = 0 then false else true)
              (if fsN = 0 then false else true)).2.1
            (getEllipseQ env pos (org.1 + ex, org.2 + ey) |rx0| |ry0|
              (jmodQ rot 360) (if faN = 0 then false else true)
              (if fsN = 0 then false else true)).2.2 st)) := by
  refine ⟨?_, ?_, ?_, ?_, ?_⟩
  · intro h
    simp [arcStep, h.1, h.2]
  · intro hne hrx hry
    simp [arcStep, hne, hrx, hry]
  · intro hne hry hrx
    simp [arcStep, hne, hrx, hry]
  · intro hne hrx hry
    simp [arcStep, hne, hrx, hry]
  · intro hne hrx hry
    simp [arcStep, hne, hrx, hry, getEllipseQ]

/-- C6 counterexample: with current position `(0,0)` and an arc command with
`rx = 1`, `ry = 0` and end point `(5,7)`, the source draws a horizontal line
ending at `(5,0)` — not a line to the arc's end point `(5,7)` as the claim
states — and the new current position is `(5,0)`. -/
theorem c6_counterexample :
    (arcStep witEnv (0, 0) (0, 0) 1 0 0 0 0 5 7 initState).1 = (5, 0) ∧
      lastEnd ((arcStep witEnv (0, 0) (0, 0) 1 0 0 0 0 5 7 initState).2).cmds =
        some (5, 0) ∧
      ((5 : ℚ), (0 : ℚ)) ≠ ((5 : ℚ), (7 : ℚ)) := by
  have harc : arcStep witEnv (0, 0) (0, 0) 1 0 0 0 0 5 7 initState =
      ((5, 0), cLine witEnv 0 0 5 0 initState) := by
    simp [arcStep]
  have hf : witEnv.cfg.fsteps ≠ 0 := by norm_num [witEnv, defaultConfig]
  have hms : witEnv.cfg.msteps ≠ 0 := by norm_num [witEnv, defaultConfig]
  have hj0 : jround witEnv.cfg 0 = 0 := by
    rw [show (0 : ℚ) = ((0 : ℤ) : ℚ) by norm_num, jround_int]
  have hj5 : jround witEnv.cfg 5 = 5 := by
    rw [show (5 : ℚ) = ((5 : ℤ) : ℚ) by norm_num, jround_int]
  rw [harc]
  refine ⟨rfl, ?_, by norm_num⟩
  rw [cLine_lastEnd witEnv 0 0 5 0 initState hf hms,
    cLine_pos witEnv 0 0 5 0 initState hf hms, hj5, hj0]

/-- C6 witness: the skip case applied at a concrete no-op arc command. -/
theorem c6_witness :
    arcStep witEnv (3, 4) (3, 4) 2 2 0 0 0 0 0 initState =
      ((3, 4), initState) :=
  (c6_arc_dispatch witEnv (3, 4) (3, 4) 2 2 0 0 0 0 0 initState).1
    ⟨by norm_num, by norm_num⟩

/-- C3 witness: the count formula applied to the concrete line
`(0,0) - (3,4)` of length 5 in the concrete oracle environment. -/
theorem c3_witness :
    quadCount (cLine witEnv 0 0 3 4 initState).cmds =
      quadCount initState.cmds +
        max witEnv.cfg.msteps (⌈(5 : ℚ) / witEnv.cfg.fsteps⌉.toNat) :=
  c3_line_segment_count.1 witEnv 0 0 3 4 5 initState
    (by norm_num [witEnv, defaultConfig]) (by norm_num [witEnv, defaultConfig])
    (by norm_num)
    (by
      show qsqrt _ = 5
      rw [show ((3 : ℚ) - 0) * (3 - 0) + (4 - 0) * (4 - 0) =
        ((5 : ℕ) : ℚ) * ((5 : ℕ) : ℚ) by push_cast; ring]
      rw [qsqrt_natCast]
      norm_num)

/-- Projection of the real trig-ops record. -/
theorem realOps_cos : realOps.cos = Real.cos := rfl
theorem realOps_sin : realOps.sin = Real.sin := rfl
theorem realOps_sqrt : realOps.sqrt = Real.sqrt := rfl
theorem realOps_acos : realOps.acos = Real.arccos := rfl

/-- Truncation toward zero vanishes on the open interval `(-1, 1)`. -/
theorem truncR_eq_zero {x : ℝ} (h1 : -1 < x) (h2 : x < 1) : truncR x = 0 := by
  rw [truncR]
  split
  · next h =>
    rw [Int.floor_eq_zero_iff.mpr ⟨h, h2⟩]
    norm_num
  · next h =>
    push_neg at h
    rw [show (⌈x⌉ : ℤ) = 0 from Int.ceil_eq_zero_iff.mpr ⟨h1, le_of_lt h⟩]
    norm_num

/-- The JavaScript `%` is the identity on arguments smaller than the
modulus in absolute value. -/
theorem jmodR_eq_self {a : ℝ} (h : |a| < 360) : jmodT realOps a 360 = a := by
  obtain ⟨ha1, ha2⟩ := abs_lt.mp h
  have h1 : -1 < a / 360 := by
    rw [lt_div_iff₀ (by norm_num : (0:ℝ) < 360)]
    linarith
  have h2 : a / 360 < 1 := by
    rw [div_lt_one (by norm_num : (0:ℝ) < 360)]
    exact ha2
  rw [jmodT]
  show a - 360 * truncR (a / 360) = a
  rw [truncR_eq_zero h1 h2]
  ring

/-- Cosine and sine of the signed arccos `getEllipse` uses: for a unit
vector `(a, b)` the angle `(sign b) * arccos a` has cosine `a` and sine
`b`, and lies within `[-pi, pi]`. -/
theorem cos_sin_signed_arccos (a b : ℝ) (hunit : a ^ 2 + b ^ 2 = 1) :
    Real.cos ((if 0 < b then (1:ℝ) else -1) * Real.arccos a) = a ∧
      Real.sin ((if 0 < b then (1:ℝ) else -1) * Real.arccos a) = b ∧
      |(if 0 < b then (1:ℝ) else -1) * Real.arccos a| ≤ Real.pi := by
  have ha1 : -1 ≤ a := by nlinarith
  have ha2 : a ≤ 1 := by nlinarith
  have habs : |Real.arccos a| ≤ Real.pi := by
    rw [abs_of_nonneg (Real.arccos_nonneg a)]
    exact Real.arccos_le_pi a
  have hsq : Real.sqrt (1 - a ^ 2) = |b| := by
    rw [show (1 : ℝ) - a ^ 2 = b ^ 2 by linarith]
    exact Real.sqrt_sq_eq_abs b
  split
  · next hb =>
    rw [one_mul]
    refine ⟨Real.cos_arccos ha1 ha2, ?_, habs⟩
    rw [Real.sin_arccos, hsq]
    exact abs_of_pos hb
  · next hb =>
    push_neg at hb
    rw [neg_one_mul]
    refine ⟨?_, ?_, by rwa [abs_neg]⟩
    · rw [Real.cos_neg]
      exact Real.cos_arccos ha1 ha2
    · rw [Real.sin_neg, Real.sin_arccos, hsq, abs_of_nonpos hb]
      ring

/-- The inner `angle` helper evaluated against the base vector `(1, 0)`
recovers any unit vector. -/
theorem angle_one_zero (b1 b2 : ℝ) (hu : b1 ^ 2 + b2 ^ 2 = 1) :
    Real.cos (angleT realOps (1, 0) (b1, b2)) = b1 ∧
      Real.sin (angleT realOps (1, 0) (b1, b2)) = b2 := by
  have h : angleT realOps (1, 0) (b1, b2) =
      (if 0 < b2 then (1:ℝ) else -1) * Real.arccos b1 := by
    rw [angleT, realOps_acos, realOps_sqrt]
    norm_num [Real.sqrt_one]
  rw [h]
  exact ⟨(cos_sin_signed_arccos b1 b2 hu).1, (cos_sin_signed_arccos b1 b2 hu).2.1⟩

/-- The inner `angle` helper between two unit vectors: its cosine is their
dot product, its sine their cross product, and it lies within `[-pi, pi]`. -/
theorem angle_unit (b1 b2 c1 c2 : ℝ) (hb : b1 ^ 2 + b2 ^ 2 = 1)
    (hL : (b1 * c1 + b2 * c2) ^ 2 + (b1 * c2 - b2 * c1) ^ 2 = 1) :
    Real.cos (angleT realOps (b1, b2) (c1, c2)) = b1 * c1 + b2 * c2 ∧
      Real.sin (angleT realOps (b1, b2) (c1, c2)) = b1 * c2 - b2 * c1 ∧
      |angleT realOps (b1, b2) (c1, c2)| ≤ Real.pi := by
  have h : angleT realOps (b1, b2) (c1, c2) =
      (if 0 < b1 * c2 - b2 * c1 then (1:ℝ) else -1) *
        Real.arccos (b1 * c1 + b2 * c2) := by
    rw [angleT, realOps_acos, realOps_sqrt]
    rw [show b1 * b1 + b2 * b2 = 1 by linear_combination hb]
    rw [Real.sqrt_one]
    norm_num
  rw [h]
  exact cos_sin_signed_arccos (b1 * c1 + b2 * c2) (b1 * c2 - b2 * c1) hL

/-- C5: for every non-degenerate elliptic-arc input (radii positive, start
distinct from end, rotation below 360 degrees in absolute value, radii large
enough to span the end points) and all four flag combinations, converting to
the center parameterization via `getEllipse` over exact real arithmetic and
reconstructing the start and end points from
`(center, rh, rv, rot, startAngle, endAngle)` by the standard ellipse point
formula reproduces the original start and end points exactly. -/
theorem c5_arc_roundtrip (ps pe : ℝ × ℝ) (rh rv rot : ℝ) (fa fs : Bool)
    (hrh : 0 < rh) (hrv : 0 < rv) (hne : ps ≠ pe) (hrot : |rot| < 360)
    (hspan : ArcSpans ps pe rh rv rot) :
    ellipsePointR (getEllipseR ps pe rh rv rot fa fs).1 rh rv rot
        (getEllipseR ps pe rh rv rot fa fs).2.1 = ps ∧
      ellipsePointR (getEllipseR ps pe rh rv rot fa fs).1 rh rv rot
        (getEllipseR ps pe rh rv rot fa fs).2.2 = pe := by
  have hmod : jmodT realOps rot 360 = rot := jmodR_eq_self hrot
  have hrh0 : rh ≠ 0 := ne_of_gt hrh
  have hrv0 : rv ≠ 0 := ne_of_gt hrv
  have hrhabs : |rh| = rh := abs_of_pos hrh
  have hrvabs : |rv| = rv := abs_of_pos hrv
  have pyth : Real.cos rot ^ 2 + Real.sin rot ^ 2 = 1 := Real.cos_sq_add_sin_sq rot
  rw [ArcSpans, arcLocal] at hspan
  simp only [getEllipseR, getEllipse, hmod, hrhabs, hrvabs, realOps_cos, realOps_sin,
    realOps_sqrt] at *
  set cR := Real.cos rot with hcR
  set sR := Real.sin rot with hsR
  set x := cR * (ps.1 - pe.1) / 2 + sR * (ps.2 - pe.2) / 2 with hxdef
  set y := -1 * sR * (ps.1 - pe.1) / 2 + cR * (ps.2 - pe.2) / 2 with hydef
  set q := (rh * rh * (rv * rv - y * y) - rv * rv * (x * x)) /
    (rh * rh * (y * y) + rv * rv * (x * x)) with hqdef
  set fr := (if fa = fs then (-1:ℝ) else 1) * Real.sqrt q with hfrdef
  set xt := fr * rh * y / rv with hxtdef
  set yt := -1 * fr * rv * x / rh with hytdef
  set vt1 := (x - xt) / rh with hvt1def
  set vt2 := (y - yt) / rv with hvt2def
  set wt1 := (-x - xt) / rh with hwt1def
  set wt2 := (-y - yt) / rv with hwt2def
  have hxy : x ≠ 0 ∨ y ≠ 0 := by
    by_contra hc
    push_neg at hc
    obtain ⟨hx0, hy0⟩ := hc
    apply hne
    have t1 : cR * x - sR * y = (cR ^ 2 + sR ^ 2) * ((ps.1 - pe.1) / 2) := by
      rw [hxdef, hydef]; ring
    have t2 : sR * x + cR * y = (cR ^ 2 + sR ^ 2) * ((ps.2 - pe.2) / 2) := by
      rw [hxdef, hydef]; ring
    rw [hx0, hy0, pyth] at t1 t2
    exact Prod.ext_iff.mpr ⟨by linarith, by linarith⟩
  have hDpos : 0 < rh * rh * (y * y) + rv * rv * (x * x) := by
    rcases hxy with h | h
    · have h1 : 0 < rv * rv * (x * x) := mul_pos (mul_pos hrv hrv) (mul_self_pos.mpr h)
      have h2 : 0 ≤ rh * rh * (y * y) := mul_nonneg (mul_nonneg hrh.le hrh.le) (mul_self_nonneg y)
      linarith
    · have h1 : 0 < rh * rh * (y * y) := mul_pos (mul_pos hrh hrh) (mul_self_pos.mpr h)
      have h2 : 0 ≤ rv * rv * (x * x) := mul_nonneg (mul_nonneg hrv.le hrv.le) (mul_self_nonneg x)
      linarith
  have hN : 0 ≤ rh * rh * (rv * rv - y * y) - rv * rv * (x * x) := by
    have e : rh * rh * (rv * rv - y * y) - rv * rv * (x * x) =
        rh ^ 2 * rv ^ 2 - (rv ^ 2 * x ^ 2 + rh ^ 2 * y ^ 2) := by ring
    rw [e]
    linarith
  have hq0 : 0 ≤ q := by
    rw [hqdef]
    exact div_nonneg hN (le_of_lt hDpos)
  have hfr2 : fr ^ 2 = q := by
    have hsq : ((if fa = fs then (-1:ℝ) else 1)) ^ 2 = 1 := by split <;> norm_num
    rw [hfrdef, mul_pow, hsq, one_mul, Real.sq_sqrt hq0]
  have hfrD : fr ^ 2 * (rh * rh * (y * y) + rv * rv * (x * x)) =
      rh * rh * (rv * rv - y * y) - rv * rv * (x * x) := by
    rw [hfr2, hqdef, div_mul_cancel₀ _ (ne_of_gt hDpos)]
  have hA : rv * xt = fr * rh * y := by
    rw [hxtdef]; field_simp
  have hB : rh * yt = -(fr * rv * x) := by
    rw [hytdef]; field_simp; ring
  have U1 : vt1 ^ 2 + vt2 ^ 2 = 1 := by
    rw [hvt1def, hvt2def, div_pow, div_pow,
      div_add_div _ _ (pow_ne_zero 2 hrh0) (pow_ne_zero 2 hrv0),
      div_eq_one_iff_eq (mul_ne_zero (pow_ne_zero 2 hrh0) (pow_ne_zero 2 hrv0))]
    linear_combination (rv * xt + fr * rh * y - 2 * rv * x) * hA +
      (rh * yt - fr * rv * x - 2 * rh * y) * hB + hfrD
  have U2 : wt1 ^ 2 + wt2 ^ 2 = 1 := by
    rw [hwt1def, hwt2def, div_pow, div_pow,
      div_add_div _ _ (pow_ne_zero 2 hrh0) (pow_ne_zero 2 hrv0),
      div_eq_one_iff_eq (mul_ne_zero (pow_ne_zero 2 hrh0) (pow_ne_zero 2 hrv0))]
    linear_combination (rv * xt + fr * rh * y + 2 * rv * x) * hA +
      (rh * yt - fr * rv * x + 2 * rh * y) * hB + hfrD
  have L : (vt1 * wt1 + vt2 * wt2) ^ 2 + (vt1 * wt2 - vt2 * wt1) ^ 2 = 1 := by
    linear_combination (wt1 ^ 2 + wt2 ^ 2) * U1 + U2
  have hang1 := angle_one_zero vt1 vt2 U1
  have hang2 := angle_unit vt1 vt2 wt1 wt2 U1 L
  have hjm : jmodT realOps (angleT realOps (vt1, vt2) (wt1, wt2)) 360 =
      angleT realOps (vt1, vt2) (wt1, wt2) :=
    jmodR_eq_self (lt_of_le_of_lt hang2.2.2 (by linarith [Real.pi_lt_315]))
  have F3 : Real.cos (angleT realOps (1, 0) (vt1, vt2) +
      angleT realOps (vt1, vt2) (wt1, wt2)) = wt1 := by
    rw [Real.cos_add, hang1.1, hang1.2, hang2.1, hang2.2.1]
    linear_combination wt1 * U1
  have F4 : Real.sin (angleT realOps (1, 0) (vt1, vt2) +
      angleT realOps (vt1, vt2) (wt1, wt2)) = wt2 := by
    rw [Real.sin_add, hang1.1, hang1.2, hang2.1, hang2.2.1]
    linear_combination wt2 * U1
  have h1 : rh * vt1 = x - xt := by rw [hvt1def]; field_simp
  have h2 : rv * vt2 = y - yt := by rw [hvt2def]; field_simp
  have h3 : rh * wt1 = -x - xt := by rw [hwt1def]; field_simp
  have h4 : rv * wt2 = -y - yt := by rw [hwt2def]; field_simp
  rw [hjm]
  constructor
  · rw [ellipsePointR]
    dsimp only
    rw [← hcR, ← hsR, hang1.1, hang1.2]
    refine Prod.ext_iff.mpr ⟨?_, ?_⟩
    · dsimp only
      linear_combination cR * h1 - sR * h2 + cR * hxdef - sR * hydef +
        ((ps.1 - pe.1) / 2) * pyth
    · dsimp only
      linear_combination sR * h1 + cR * h2 + sR * hxdef + cR * hydef +
        ((ps.2 - pe.2) / 2) * pyth
  · rw [ellipsePointR]
    dsimp only
    rw [← hcR, ← hsR, F3, F4]
    refine Prod.ext_iff.mpr ⟨?_, ?_⟩
    · dsimp only
      linear_combination cR * h3 - sR * h4 - cR * hxdef + sR * hydef -
        ((ps.1 - pe.1) / 2) * pyth
    · dsimp only
      linear_combination sR * h3 + cR * h4 - sR * hxdef - cR * hydef -
        ((ps.2 - pe.2) / 2) * pyth

/-- C5 witness: the round trip applied to the concrete arc from `(0,0)` to
`(2,0)` with unit radii, no rotation, and flags `(true, false)`. -/
theorem c5_witness :
    ((0:ℝ) < 1) ∧ (((0:ℝ), (0:ℝ)) ≠ ((2:ℝ), (0:ℝ))) ∧ |(0:ℝ)| < 360 ∧
      ArcSpans (0, 0) (2, 0) 1 1 0 ∧
      (ellipsePointR (getEllipseR ((0:ℝ), 0) (2, 0) 1 1 0 true false).1 1 1 0
          (getEllipseR ((0:ℝ), 0) (2, 0) 1 1 0 true false).2.1 = (0, 0) ∧
        ellipsePointR (getEllipseR ((0:ℝ), 0) (2, 0) 1 1 0 true false).1 1 1 0
          (getEllipseR ((0:ℝ), 0) (2, 0) 1 1 0 true false).2.2 = (2, 0)) :=
  ⟨by norm_num,
   by simp [Prod.ext_iff],
   by norm_num,
   by simp [ArcSpans, arcLocal, Real.cos_zero, Real.sin_zero],
   c5_arc_roundtrip (0, 0) (2, 0) 1 1 0 true false (by norm_num) (by norm_num)
     (by simp [Prod.ext_iff])
     (by norm_num)
     (by simp [ArcSpans, arcLocal, Real.cos_zero, Real.sin_zero])⟩

end Comic
